import Mathlib

/-!
# KemyQueueDisc: admission control, control-state protocol and occupancy statistics

A shallow embedding of `src/traffic-control/model/kemy-queue.cc`
(`KemyQueueDisc::DoEnqueue`, `DoDequeue`, `GetQueueSize`, `updateStats`).

Conventions of the embedding.

* `Simulator::Now ().GetSeconds ()` is an explicit argument `now`; one call of
  `DoEnqueue` or `DoDequeue` is one simulator event, so every clock read inside
  it sees the same `now`.
* Times and averages (`double` in the source) are rationals: the statistics are
  studied over exact arithmetic.  Division is that of the field of rationals;
  the averaging branch divides by `now`, which is positive whenever
  `total_time_` is not negative.
* `uint32_t` quantities are natural numbers.  The one arithmetic operation the
  source performs on them, `GetQueueSize()+1`, is taken modulo `2^32`, and a
  count handed to `updateStats (int queuesize)` is narrowed to a 32-bit signed
  integer (`toInt32`).
* `NS_ABORT_MSG` is the result `none`.
* The collaborators whose classes are not part of the source tree (packet,
  packet store, `Memory`, `Whisker`, `WhiskerTree`, the base-class `Drop`) are
  modelled from the specification, each under a comment that says so.
-/

namespace Kemy

/-! ## Collaborators -/

/-- Modelled from the spec: the packet representation is an external collaborator.
The queue discipline only needs a packet's size in bytes; `id` tells packets apart. -/
structure Packet where
  id : Nat
  size : Nat
deriving DecidableEq, Repr

/-- Modelled from the spec: the PacketStore, an ordered buffer of packets with
append-at-tail, remove-from-head, a packet count and a byte count.  The head of
the store is the head of `items`.  The source reaches the store as `q_`, as
`q_->GetInternalQueue(0)` and as `GetInternalQueue (0)`; the class behind these
spellings is not in the source tree and the spec knows one store only, so all
three denote this one buffer.  The store has no bound of its own. -/
structure PacketQueue where
  items : List Packet
deriving DecidableEq, Repr

namespace PacketQueue

/-- Packet count of the store (`GetNPackets ()`). -/
def GetNPackets (q : PacketQueue) : Nat := q.items.length

/-- Byte count of the store (`GetNBytes ()`): the sum of the sizes of its packets. -/
def GetNBytes (q : PacketQueue) : Nat := (q.items.map Packet.size).sum

/-- Packet count under its other spelling, `q_->length()`. -/
def length (q : PacketQueue) : Nat := q.GetNPackets

/-- Byte count under its other spelling, `q_->byteLength()`. -/
def byteLength (q : PacketQueue) : Nat := q.GetNBytes

/-- Append at the tail (`q_->DoEnqueue(p)`). -/
def DoEnqueue (q : PacketQueue) (p : Packet) : PacketQueue := ⟨q.items ++ [p]⟩

/-- Remove from the head (`q_->DoDequeue()`): the head packet and the rest, or
nothing and the store as it was when it is empty. -/
def DoDequeue (q : PacketQueue) : Option Packet × PacketQueue :=
  match q.items with
  | [] => (none, q)
  | p :: rest => (some p, ⟨rest⟩)

end PacketQueue

/-- One observation fed to the control state: `packet_receive(tickno, len)` or
`packet_drop(tickno, len)`. -/
inductive MemoryEvent where
  | packet_receive (tickno : ℚ) (len : Nat)
  | packet_drop (tickno : ℚ) (len : Nat)
deriving DecidableEq, Repr

/-- Modelled from the spec: the ControlState (`Memory`), an aggregate that is
closed to the controller and is mutated only by "received" and "dropped"
observations.  The class is not in the source tree; it is recorded here as the
sequence of observations it has been fed, oldest first, of which every concrete
summary is a function. -/
structure Memory where
  events : List MemoryEvent
deriving DecidableEq, Repr

namespace Memory

/-- Feed a "received" observation (`_memory.packet_receive(tickno, len)`). -/
def packet_receive (m : Memory) (tickno : ℚ) (len : Nat) : Memory :=
  ⟨m.events ++ [MemoryEvent.packet_receive tickno len]⟩

/-- Feed a "dropped" observation (`_memory.packet_drop(tickno, len)`). -/
def packet_drop (m : Memory) (tickno : ℚ) (len : Nat) : Memory :=
  ⟨m.events ++ [MemoryEvent.packet_drop tickno len]⟩

end Memory

/-- Modelled from the spec: a PolicyRule (`Whisker`), an immutable value with a
pure window transform and the floor and ceiling it declares for the Window.
The class is not in the source tree; `window` returns a value of the Window's
own type. -/
structure Whisker where
  window : Nat → Nat
  floor : Nat
  ceiling : Nat

/-- Modelled from the spec: the PolicyTable (`WhiskerTree`), a total, deterministic,
side-effect-free lookup from a ControlState to a PolicyRule. -/
structure WhiskerTree where
  use_whisker : Memory → Whisker

/-- Occupancy mode of the discipline (`Queue::QueueMode`); `unknown` stands for
any value that is neither of the two named modes. -/
inductive QueueMode where
  | QUEUE_MODE_PACKETS
  | QUEUE_MODE_BYTES
  | unknown
deriving DecidableEq, Repr

/-! ## The queue discipline -/

/-- The state of a `KemyQueueDisc`.  `_whiskers`, `_memory`, `_the_window`,
`summarystats`, `qib_` and `q_` are the members the header declares; `qlim_`
(capacity limit), `true_ave_` and `total_time_` (running average and time of its
last update) are members the source file uses; `m_mode` is what `GetMode ()`
reads; `dropped` lists the packets handed to the base-class `Drop`, oldest
first. -/
structure KemyQueueDisc where
  _whiskers : WhiskerTree
  _memory : Memory
  _the_window : Nat
  summarystats : Nat
  qib_ : Nat
  q_ : PacketQueue
  qlim_ : Nat
  m_mode : QueueMode
  true_ave_ : ℚ
  total_time_ : ℚ
  dropped : List Packet

namespace KemyQueueDisc

/-- The configured occupancy mode (`GetMode ()`). -/
def GetMode (s : KemyQueueDisc) : QueueMode := s.m_mode

/-- Modelled from the spec: the base-class `Drop (p)`, which is not in the source
tree; the packet is discarded and the drop is recorded. -/
def Drop (s : KemyQueueDisc) (p : Packet) : KemyQueueDisc :=
  { s with dropped := s.dropped ++ [p] }

/-- Current occupancy (`KemyQueueDisc::GetQueueSize`): the byte count in bytes
mode, the packet count in packets mode, an abort otherwise. -/
def GetQueueSize (s : KemyQueueDisc) : Option Nat :=
  if s.GetMode = QueueMode.QUEUE_MODE_BYTES then
    some s.q_.GetNBytes
  else if s.GetMode = QueueMode.QUEUE_MODE_PACKETS then
    some s.q_.GetNPackets
  else
    none

/-- The conversion of a `uint32_t` count to the `int` parameter of
`updateStats (int queuesize)`: the count modulo `2^32`, read as a 32-bit
two's-complement integer, so that counts from `2^31` on come out negative. -/
def toInt32 (n : Nat) : Int :=
  if n % 4294967296 < 2147483648 then
    ((n % 4294967296 : Nat) : Int)
  else
    ((n % 4294967296 : Nat) : Int) - 4294967296

/-- Time-weighted occupancy statistics (`KemyQueueDisc::updateStats`). -/
def updateStats (s : KemyQueueDisc) (now : ℚ) (queuesize : Int) : KemyQueueDisc :=
  let newtime : ℚ := now - s.total_time_
  if newtime > 0 then
    let oldave : ℚ := s.true_ave_
    let oldtime : ℚ := s.total_time_
    let newtime : ℚ := now - s.total_time_
    { s with
      true_ave_ := (oldtime * oldave + newtime * (queuesize : ℚ)) / now
      total_time_ := now }
  else
    s

/-- The statistics step that opens `DoEnqueue` (lines 31-33): when `summarystats`
is set, one sample of the byte count (`qib_` set) or of the packet count (`qib_`
clear), narrowed to the `int` parameter of `updateStats`. -/
def enqueueStats (s : KemyQueueDisc) (now : ℚ) : KemyQueueDisc :=
  if s.summarystats ≠ 0 then
    s.updateStats now (toInt32 (if s.qib_ ≠ 0 then s.q_.GetNBytes else s.q_.GetNPackets))
  else
    s

/-- Arrival path (`KemyQueueDisc::DoEnqueue`).  The source function is declared
`bool` but returns no value on any path, so the result is the state after the
call (`none` when `GetQueueSize` aborts).  The header peek of lines 36-37 reads
the packet and changes nothing; `GetQueueSize ()` is called twice, before and
after the Window is replaced, as in the source. -/
def DoEnqueue (s : KemyQueueDisc) (p : Packet) (now : ℚ) : Option KemyQueueDisc :=
  let s1 := s.enqueueStats now
  match s1.GetQueueSize with
  | none => none
  | some size =>
    if (size + 1) % 4294967296 > s1.qlim_ then
      some (s1.Drop p)
    else
      let tickno : ℚ := now
      let current_whisker := s1._whiskers.use_whisker s1._memory
      let s2 := { s1 with _the_window := current_whisker.window s1._the_window }
      match s2.GetQueueSize with
      | none => none
      | some size2 =>
        if size2 ≥ s2._the_window then
          some (Drop { s2 with _memory := s2._memory.packet_drop tickno s2.q_.length } p)
        else
          some { s2 with
            _memory := s2._memory.packet_receive tickno s2.q_.length
            q_ := s2.q_.DoEnqueue p }

/-- Departure path (`KemyQueueDisc::DoDequeue`): the optional statistics sample,
its count narrowed to the `int` parameter of `updateStats`, then the head of the
store. -/
def DoDequeue (s : KemyQueueDisc) (now : ℚ) : Option Packet × KemyQueueDisc :=
  let s1 :=
    if s.summarystats ≠ 0 then
      s.updateStats now (toInt32 (if s.qib_ ≠ 0 then s.q_.byteLength else s.q_.length))
    else
      s
  ((s1.q_.DoDequeue).1, { s1 with q_ := (s1.q_.DoDequeue).2 })

/-- The Window that an arrival reaching the policy lookup computes (lines 43-44 of
the source): the transform of the whisker selected for the control state before
the call, applied to the previous Window. -/
def newWindow (s : KemyQueueDisc) : Nat :=
  (s._whiskers.use_whisker s._memory).window s._the_window

/-- A run of arrivals with no departure in between: each element is a packet and
the time of its arrival, handled by `DoEnqueue` in order. -/
def enqueueAll (s : KemyQueueDisc) : List (Packet × ℚ) → Option KemyQueueDisc
  | [] => some s
  | a :: rest =>
    match s.DoEnqueue a.1 a.2 with
    | none => none
    | some s1 => enqueueAll s1 rest

/-- A run of statistics samples: each element is a sample time and the occupancy
sampled at it, handled by `updateStats` in order. -/
def sampleAll (s : KemyQueueDisc) : List (ℚ × Int) → KemyQueueDisc
  | [] => s
  | a :: rest => sampleAll (s.updateStats a.1 a.2) rest

/-- The controller as the constructor leaves it (`_memory ()`, `_the_window (0)`,
an empty inner queue), for a given policy table and configuration; the
statistics start at `(0, 0)` and nothing has been dropped. -/
def create (tree : WhiskerTree) (mode : QueueMode) (qlim summarystats qib : Nat) :
    KemyQueueDisc :=
  { _whiskers := tree
    _memory := ⟨[]⟩
    _the_window := 0
    summarystats := summarystats
    qib_ := qib
    q_ := ⟨[]⟩
    qlim_ := qlim
    m_mode := mode
    true_ave_ := 0
    total_time_ := 0
    dropped := [] }

end KemyQueueDisc

/-- A policy table that returns, for every control state, a rule whose window
transform is constantly `w`. -/
def constTree (w : Nat) : WhiskerTree :=
  ⟨fun _ => { window := fun _ => w, floor := w, ceiling := w }⟩

/-- The claimed value of the running average times the final time: each occupancy
weighted by the time elapsed since the previous sample, `prev` being the time
before the first sample of the list. -/
def timeWeightedSum (prev : ℚ) : List (ℚ × Int) → ℚ
  | [] => 0
  | a :: rest => (a.1 - prev) * (a.2 : ℚ) + timeWeightedSum a.1 rest

/-- The time of the last sample of a list, `prev` when the list is empty. -/
def lastTime (prev : ℚ) : List (ℚ × Int) → ℚ
  | [] => prev
  | a :: rest => lastTime a.1 rest

namespace KemyQueueDisc

/-- A controller in packets mode, capacity 2, statistics on, whose store already
holds two packets; the policy table is constantly 3. -/
def fullDisc : KemyQueueDisc :=
  { create (constTree 3) QueueMode.QUEUE_MODE_PACKETS 2 1 0 with
    q_ := ⟨[⟨1, 40⟩, ⟨2, 60⟩]⟩ }

/-- A controller in bytes mode, capacity 1000 bytes, statistics on, whose store
holds one packet of 40 bytes; the policy table is constantly `w`. -/
def bytesDisc (w : Nat) : KemyQueueDisc :=
  { create (constTree w) QueueMode.QUEUE_MODE_BYTES 1000 1 1 with
    q_ := ⟨[⟨1, 40⟩]⟩ }

/-- A freshly created controller in bytes mode with a capacity limit of 50 bytes,
statistics off, under a policy table that is constantly 10. -/
def bytesLimit50 : KemyQueueDisc :=
  create (constTree 10) QueueMode.QUEUE_MODE_BYTES 50 0 0

/-- A controller in bytes mode (`GetMode ()`) whose flag `qib_` is clear, capacity
1000, statistics on, whose store holds one packet of 40 bytes; the policy table
is constantly 30. -/
def mixedDisc : KemyQueueDisc :=
  { create (constTree 30) QueueMode.QUEUE_MODE_BYTES 1000 1 0 with
    q_ := ⟨[⟨1, 40⟩]⟩ }

/-- One event at the controller: the arrival of a packet or a departure, each at
a time of the simulator clock. -/
inductive QueueEvent where
  | arrival (p : Packet) (now : ℚ)
  | departure (now : ℚ)
deriving DecidableEq, Repr

/-- One event handled by the controller: `DoEnqueue` for an arrival, `DoDequeue`
for a departure (whose packet leaves the model). -/
def step (s : KemyQueueDisc) : QueueEvent → Option KemyQueueDisc
  | QueueEvent.arrival p now => s.DoEnqueue p now
  | QueueEvent.departure now => some (s.DoDequeue now).2

/-- A sequence of arrivals and departures handled in order. -/
def run (s : KemyQueueDisc) : List QueueEvent → Option KemyQueueDisc
  | [] => some s
  | e :: rest =>
    match s.step e with
    | none => none
    | some s1 => run s1 rest

/-- Whether an event is an arrival that reaches the policy lookup of `DoEnqueue`
(line 43): `GetQueueSize ()` returns and the hard-capacity test of line 38 is
false. -/
def reachesLookup (s : KemyQueueDisc) : QueueEvent → Bool
  | QueueEvent.arrival _ _ =>
    match s.GetQueueSize with
    | none => false
    | some size => !decide ((size + 1) % 4294967296 > s.qlim_)
  | QueueEvent.departure _ => false

/-- Whether no event of a sequence is an arrival that reaches the policy lookup,
each event being judged in the state the earlier ones have left. -/
def noLookup (s : KemyQueueDisc) : List QueueEvent → Bool
  | [] => true
  | e :: rest =>
    !s.reachesLookup e &&
      (match s.step e with
       | none => true
       | some s1 => noLookup s1 rest)

/-- The three exits of the arrival path in source order: the hard-capacity drop
(line 40), the policy drop (line 48) and the acceptance (line 53). -/
inductive EnqueueExit where
  | hardLimitDrop
  | policyDrop
  | accepted
deriving DecidableEq, Repr

/-- The exit by which a call of `DoEnqueue` leaves (`none` when `GetQueueSize`
aborts): the control flow of `DoEnqueue` with each exit named. -/
def DoEnqueueExit (s : KemyQueueDisc) (now : ℚ) : Option EnqueueExit :=
  let s1 := s.enqueueStats now
  match s1.GetQueueSize with
  | none => none
  | some size =>
    if (size + 1) % 4294967296 > s1.qlim_ then
      some EnqueueExit.hardLimitDrop
    else
      let current_whisker := s1._whiskers.use_whisker s1._memory
      let s2 := { s1 with _the_window := current_whisker.window s1._the_window }
      match s2.GetQueueSize with
      | none => none
      | some size2 =>
        if size2 ≥ s2._the_window then
          some EnqueueExit.policyDrop
        else
          some EnqueueExit.accepted

/-- The value a call of `DoEnqueue` hands back to its caller, `none` standing for
no value.  The function is declared `bool`; the hard-capacity exit is the
statement `return;`, which carries no value, and the two other exits reach the
closing brace without a return statement. -/
def DoEnqueueReturn (s : KemyQueueDisc) (now : ℚ) : Option Bool :=
  match s.DoEnqueueExit now with
  | none => none
  | some EnqueueExit.hardLimitDrop => none
  | some EnqueueExit.policyDrop => none
  | some EnqueueExit.accepted => none

/-- The occupancies of the samples of a run that take the averaging branch of
`updateStats` (`now - total_time_ > 0` in the state the earlier samples have
left), in order. -/
def advancing (s : KemyQueueDisc) : List (ℚ × Int) → List Int
  | [] => []
  | a :: rest =>
    if a.1 - s.total_time_ > 0 then
      a.2 :: advancing (s.updateStats a.1 a.2) rest
    else
      advancing (s.updateStats a.1 a.2) rest

/-! ## Frame lemmas for the statistics step -/

/-- A count below `2^31` passes through the narrowing to `int` unchanged. -/
theorem toInt32_of_lt (n : Nat) (h : n < 2147483648) : toInt32 n = (n : Int) := by
  have hmod : n % 4294967296 = n := Nat.mod_eq_of_lt (by omega)
  unfold toInt32
  rw [hmod, if_pos h]

/-- A 32-bit count from `2^31` on comes out of the narrowing to `int` negative:
the count less `2^32`. -/
theorem toInt32_of_ge (n : Nat) (hlo : 2147483648 ≤ n) (hhi : n < 4294967296) :
    toInt32 n = (n : Int) - 4294967296 := by
  have hmod : n % 4294967296 = n := Nat.mod_eq_of_lt hhi
  unfold toInt32
  rw [hmod, if_neg (by omega)]

/-- A byte count of 3,000,000,000 reaches `updateStats` as -1,294,967,296. -/
theorem toInt32_three_billion : toInt32 3000000000 = -1294967296 := by
  rw [toInt32_of_ge 3000000000 (by decide) (by decide)]
  norm_num

theorem updateStats_frame (s : KemyQueueDisc) (now : ℚ) (queuesize : Int) :
    (s.updateStats now queuesize)._whiskers = s._whiskers ∧
    (s.updateStats now queuesize)._memory = s._memory ∧
    (s.updateStats now queuesize)._the_window = s._the_window ∧
    (s.updateStats now queuesize).summarystats = s.summarystats ∧
    (s.updateStats now queuesize).qib_ = s.qib_ ∧
    (s.updateStats now queuesize).q_ = s.q_ ∧
    (s.updateStats now queuesize).qlim_ = s.qlim_ ∧
    (s.updateStats now queuesize).m_mode = s.m_mode ∧
    (s.updateStats now queuesize).dropped = s.dropped := by
  unfold updateStats
  by_cases h : now - s.total_time_ > 0 <;> simp [h]

theorem enqueueStats_frame (s : KemyQueueDisc) (now : ℚ) :
    (s.enqueueStats now)._whiskers = s._whiskers ∧
    (s.enqueueStats now)._memory = s._memory ∧
    (s.enqueueStats now)._the_window = s._the_window ∧
    (s.enqueueStats now).summarystats = s.summarystats ∧
    (s.enqueueStats now).qib_ = s.qib_ ∧
    (s.enqueueStats now).q_ = s.q_ ∧
    (s.enqueueStats now).qlim_ = s.qlim_ ∧
    (s.enqueueStats now).m_mode = s.m_mode ∧
    (s.enqueueStats now).dropped = s.dropped := by
  unfold enqueueStats
  by_cases h : s.summarystats ≠ 0
  · rw [if_pos h]; exact updateStats_frame s now _
  · rw [if_neg h]; simp

@[simp] theorem enqueueStats_whiskers (s : KemyQueueDisc) (now : ℚ) :
    (s.enqueueStats now)._whiskers = s._whiskers := (enqueueStats_frame s now).1

@[simp] theorem enqueueStats_memory (s : KemyQueueDisc) (now : ℚ) :
    (s.enqueueStats now)._memory = s._memory := (enqueueStats_frame s now).2.1

@[simp] theorem enqueueStats_window (s : KemyQueueDisc) (now : ℚ) :
    (s.enqueueStats now)._the_window = s._the_window := (enqueueStats_frame s now).2.2.1

@[simp] theorem enqueueStats_summarystats (s : KemyQueueDisc) (now : ℚ) :
    (s.enqueueStats now).summarystats = s.summarystats := (enqueueStats_frame s now).2.2.2.1

@[simp] theorem enqueueStats_qib (s : KemyQueueDisc) (now : ℚ) :
    (s.enqueueStats now).qib_ = s.qib_ := (enqueueStats_frame s now).2.2.2.2.1

@[simp] theorem enqueueStats_q (s : KemyQueueDisc) (now : ℚ) :
    (s.enqueueStats now).q_ = s.q_ := (enqueueStats_frame s now).2.2.2.2.2.1

@[simp] theorem enqueueStats_qlim (s : KemyQueueDisc) (now : ℚ) :
    (s.enqueueStats now).qlim_ = s.qlim_ := (enqueueStats_frame s now).2.2.2.2.2.2.1

@[simp] theorem enqueueStats_mode (s : KemyQueueDisc) (now : ℚ) :
    (s.enqueueStats now).m_mode = s.m_mode := (enqueueStats_frame s now).2.2.2.2.2.2.2.1

@[simp] theorem enqueueStats_dropped (s : KemyQueueDisc) (now : ℚ) :
    (s.enqueueStats now).dropped = s.dropped := (enqueueStats_frame s now).2.2.2.2.2.2.2.2

@[simp] theorem enqueueStats_GetQueueSize (s : KemyQueueDisc) (now : ℚ) :
    (s.enqueueStats now).GetQueueSize = s.GetQueueSize := by
  simp [GetQueueSize, GetMode]

/-- The occupancy depends on the store and on the mode only. -/
theorem GetQueueSize_congr (t s : KemyQueueDisc) (hq : t.q_ = s.q_) (hm : t.m_mode = s.m_mode) :
    t.GetQueueSize = s.GetQueueSize := by
  simp [GetQueueSize, GetMode, hq, hm]

/-! ## The three exits of the arrival path -/

/-- Exit at the hard-capacity check: only the statistics step and `Drop` have run. -/
theorem DoEnqueue_hard (s : KemyQueueDisc) (p : Packet) (now : ℚ) (size : Nat)
    (hsize : s.GetQueueSize = some size)
    (hlim : (size + 1) % 4294967296 > s.qlim_) :
    s.DoEnqueue p now = some ((s.enqueueStats now).Drop p) := by
  simp [DoEnqueue, hsize, hlim]

/-- Exit at the policy drop. -/
theorem DoEnqueue_policy (s : KemyQueueDisc) (p : Packet) (now : ℚ) (size : Nat)
    (hsize : s.GetQueueSize = some size)
    (hlim : ¬ (size + 1) % 4294967296 > s.qlim_)
    (hwin : size ≥ s.newWindow) :
    s.DoEnqueue p now =
      some (Drop { s.enqueueStats now with
        _the_window := s.newWindow
        _memory := s._memory.packet_drop now s.q_.length } p) := by
  have hlim2 : ¬ s.qlim_ < (size + 1) % 4294967296 := hlim
  unfold newWindow at hwin ⊢
  simp only [DoEnqueue, enqueueStats_GetQueueSize, hsize, enqueueStats_qlim, gt_iff_lt,
    if_neg hlim2, enqueueStats_whiskers, enqueueStats_memory, enqueueStats_window]
  rw [GetQueueSize_congr _ s (by simp) (by simp), hsize]
  simp [hwin]

/-- Exit at the acceptance. -/
theorem DoEnqueue_accept (s : KemyQueueDisc) (p : Packet) (now : ℚ) (size : Nat)
    (hsize : s.GetQueueSize = some size)
    (hlim : ¬ (size + 1) % 4294967296 > s.qlim_)
    (hwin : size < s.newWindow) :
    s.DoEnqueue p now =
      some { s.enqueueStats now with
        _the_window := s.newWindow
        _memory := s._memory.packet_receive now s.q_.length
        q_ := s.q_.DoEnqueue p } := by
  have hlim2 : ¬ s.qlim_ < (size + 1) % 4294967296 := hlim
  unfold newWindow at hwin ⊢
  simp only [DoEnqueue, enqueueStats_GetQueueSize, hsize, enqueueStats_qlim, gt_iff_lt,
    if_neg hlim2, enqueueStats_whiskers, enqueueStats_memory, enqueueStats_window]
  rw [GetQueueSize_congr _ s (by simp) (by simp), hsize]
  simp [Nat.not_le.mpr hwin]

/-! ## Arrival path: the hard-capacity check (C1) -/

/-- C1: in packets mode, for every controller state (hence every policy table) and
every arriving packet with packetCount + 1 > qlim_, the 32-bit sum
packetCount + 1 being representable, `DoEnqueue` returns, hands the packet to
`Drop`, and leaves `_memory`, `_the_window` and the packet store as they were:
no whisker is applied to the Window and no observation reaches the control state. -/
theorem C1_hard_limit_drop_leaves_control_state (s : KemyQueueDisc) (p : Packet) (now : ℚ)
    (hmode : s.GetMode = QueueMode.QUEUE_MODE_PACKETS)
    (hfit : s.q_.GetNPackets + 1 < 4294967296)
    (hover : s.q_.GetNPackets + 1 > s.qlim_) :
    ∃ s', s.DoEnqueue p now = some s' ∧
      s'.dropped = s.dropped ++ [p] ∧
      s'._memory = s._memory ∧
      s'._the_window = s._the_window ∧
      s'.q_ = s.q_ := by
  have hsize : s.GetQueueSize = some s.q_.GetNPackets := by
    simp [GetQueueSize, hmode]
  have hlim : (s.q_.GetNPackets + 1) % 4294967296 > s.qlim_ := by
    rw [Nat.mod_eq_of_lt hfit]; exact hover
  refine ⟨_, DoEnqueue_hard s p now _ hsize hlim, ?_, ?_, ?_, ?_⟩ <;> simp [Drop]

/-- C1 at a concrete input: a store of two packets under capacity 2. -/
theorem C1_hard_limit_drop_witness :
    fullDisc.GetMode = QueueMode.QUEUE_MODE_PACKETS ∧
    fullDisc.q_.GetNPackets + 1 < 4294967296 ∧
    fullDisc.q_.GetNPackets + 1 > fullDisc.qlim_ ∧
    ∃ s', fullDisc.DoEnqueue ⟨3, 50⟩ 7 = some s' ∧
      s'.dropped = fullDisc.dropped ++ [⟨3, 50⟩] ∧
      s'._memory = fullDisc._memory ∧
      s'._the_window = fullDisc._the_window ∧
      s'.q_ = fullDisc.q_ :=
  ⟨by decide, by decide, by decide,
    C1_hard_limit_drop_leaves_control_state fullDisc ⟨3, 50⟩ 7 (by decide) (by decide)
      (by decide)⟩

/-! ## Arrival path: acceptance and policy rejection (C2, C3, C4) -/

/-- An arrival ends in exactly one of the three exits, told apart by the source's
own two tests. -/
theorem DoEnqueue_cases (s s' : KemyQueueDisc) (p : Packet) (now : ℚ)
    (h : s.DoEnqueue p now = some s') :
    ∃ size, s.GetQueueSize = some size ∧
      (((size + 1) % 4294967296 > s.qlim_ ∧ s' = (s.enqueueStats now).Drop p) ∨
       (¬ (size + 1) % 4294967296 > s.qlim_ ∧ size ≥ s.newWindow ∧
          s' = Drop { s.enqueueStats now with
            _the_window := s.newWindow
            _memory := s._memory.packet_drop now s.q_.length } p) ∨
       (¬ (size + 1) % 4294967296 > s.qlim_ ∧ size < s.newWindow ∧
          s' = { s.enqueueStats now with
            _the_window := s.newWindow
            _memory := s._memory.packet_receive now s.q_.length
            q_ := s.q_.DoEnqueue p })) := by
  cases hsize : s.GetQueueSize with
  | none => simp [DoEnqueue, hsize] at h
  | some size =>
    refine ⟨size, rfl, ?_⟩
    by_cases hlim : (size + 1) % 4294967296 > s.qlim_
    · rw [DoEnqueue_hard s p now size hsize hlim] at h
      exact Or.inl ⟨hlim, (Option.some.inj h).symm⟩
    · by_cases hwin : size ≥ s.newWindow
      · rw [DoEnqueue_policy s p now size hsize hlim hwin] at h
        exact Or.inr (Or.inl ⟨hlim, hwin, (Option.some.inj h).symm⟩)
      · rw [DoEnqueue_accept s p now size hsize hlim (Nat.lt_of_not_le hwin)] at h
        exact Or.inr (Or.inr ⟨hlim, Nat.lt_of_not_le hwin, (Option.some.inj h).symm⟩)

/-- C2: for every arrival that `DoEnqueue` accepts (the call returns and the packet
was not handed to `Drop`), the packet is appended at the tail of the store, the
occupancy grows by 1 in packets mode and by the packet's size in bytes mode, and
the control state was fed exactly one observation, a `packet_receive` stamped
with the arrival's `now`, and no `packet_drop`. -/
theorem C2_accept_postcondition (s s' : KemyQueueDisc) (p : Packet) (now : ℚ)
    (h : s.DoEnqueue p now = some s')
    (hacc : s'.dropped = s.dropped) :
    s'.q_.items = s.q_.items ++ [p] ∧
    (∃ size, s.GetQueueSize = some size ∧
      (s.GetMode = QueueMode.QUEUE_MODE_PACKETS → s'.GetQueueSize = some (size + 1)) ∧
      (s.GetMode = QueueMode.QUEUE_MODE_BYTES → s'.GetQueueSize = some (size + p.size))) ∧
    s'.q_.GetNPackets = s.q_.GetNPackets + 1 ∧
    s'.q_.GetNBytes = s.q_.GetNBytes + p.size ∧
    s'._memory.events = s._memory.events ++ [MemoryEvent.packet_receive now s.q_.length] := by
  obtain ⟨size, hsize, hcase⟩ := DoEnqueue_cases s s' p now h
  rcases hcase with ⟨_, rfl⟩ | ⟨_, _, rfl⟩ | ⟨_, _, rfl⟩
  · simp [Drop] at hacc
  · simp [Drop] at hacc
  · refine ⟨by simp [PacketQueue.DoEnqueue], ⟨size, hsize, ?_, ?_⟩, ?_, ?_, ?_⟩
    · intro hm
      simp only [GetQueueSize, GetMode] at hsize hm ⊢
      simp [hm] at hsize ⊢
      simp [PacketQueue.DoEnqueue, PacketQueue.GetNPackets] at hsize ⊢
      omega
    · intro hm
      simp only [GetQueueSize, GetMode] at hsize hm ⊢
      simp [hm] at hsize ⊢
      simp [PacketQueue.DoEnqueue, PacketQueue.GetNBytes] at hsize ⊢
      omega
    · simp [PacketQueue.DoEnqueue, PacketQueue.GetNPackets]
    · simp [PacketQueue.DoEnqueue, PacketQueue.GetNBytes]
    · simp [Memory.packet_receive]

/-- C2 at a concrete input: bytes mode, 40 bytes stored, a packet of 60 bytes
arriving at time 5 under a constant window of 100. -/
theorem C2_accept_witness :
    ∃ s', (bytesDisc 100).DoEnqueue ⟨2, 60⟩ 5 = some s' ∧
      s'.dropped = (bytesDisc 100).dropped ∧
      s'.q_.items = [⟨1, 40⟩, ⟨2, 60⟩] ∧
      (∃ size, (bytesDisc 100).GetQueueSize = some size ∧
        ((bytesDisc 100).GetMode = QueueMode.QUEUE_MODE_PACKETS →
          s'.GetQueueSize = some (size + 1)) ∧
        ((bytesDisc 100).GetMode = QueueMode.QUEUE_MODE_BYTES →
          s'.GetQueueSize = some (size + 60))) ∧
      s'.q_.GetNPackets = 2 ∧
      s'.q_.GetNBytes = 100 ∧
      s'._memory.events = [MemoryEvent.packet_receive 5 1] := by
  have h := DoEnqueue_accept (bytesDisc 100) ⟨2, 60⟩ 5 40 (by decide) (by decide) (by decide)
  exact ⟨_, h, by simp, C2_accept_postcondition (bytesDisc 100) _ ⟨2, 60⟩ 5 h (by simp)⟩

/-- C3: for every arrival rejected on the policy path (it passed the hard-capacity
check and the occupancy is at least the new Window), `DoEnqueue` returns, the
packet store is unchanged (same packets, same packet count, same byte count),
the packet is handed to `Drop`, and the control state was fed exactly one
observation, a `packet_drop`, and no `packet_receive`. -/
theorem C3_policy_reject_postcondition (s : KemyQueueDisc) (p : Packet) (now : ℚ) (size : Nat)
    (hsize : s.GetQueueSize = some size)
    (hpass : ¬ (size + 1) % 4294967296 > s.qlim_)
    (hwin : size ≥ s.newWindow) :
    ∃ s', s.DoEnqueue p now = some s' ∧
      s'.q_ = s.q_ ∧
      s'.q_.GetNPackets = s.q_.GetNPackets ∧
      s'.q_.GetNBytes = s.q_.GetNBytes ∧
      s'.dropped = s.dropped ++ [p] ∧
      s'._memory.events = s._memory.events ++ [MemoryEvent.packet_drop now s.q_.length] := by
  refine ⟨_, DoEnqueue_policy s p now size hsize hpass hwin, ?_, ?_, ?_, ?_, ?_⟩ <;>
    simp [Drop, Memory.packet_drop]

/-- C3 at a concrete input: bytes mode, 40 bytes stored, constant window 30. -/
theorem C3_policy_reject_witness :
    (bytesDisc 30).GetQueueSize = some 40 ∧
    ¬ (40 + 1) % 4294967296 > (bytesDisc 30).qlim_ ∧
    40 ≥ (bytesDisc 30).newWindow ∧
    ∃ s', (bytesDisc 30).DoEnqueue ⟨2, 60⟩ 5 = some s' ∧
      s'.q_ = (bytesDisc 30).q_ ∧
      s'.q_.GetNPackets = (bytesDisc 30).q_.GetNPackets ∧
      s'.q_.GetNBytes = (bytesDisc 30).q_.GetNBytes ∧
      s'.dropped = (bytesDisc 30).dropped ++ [⟨2, 60⟩] ∧
      s'._memory.events =
        (bytesDisc 30)._memory.events ++ [MemoryEvent.packet_drop 5 (bytesDisc 30).q_.length] :=
  ⟨by decide, by decide, by decide,
    C3_policy_reject_postcondition (bytesDisc 30) ⟨2, 60⟩ 5 40 (by decide) (by decide)
      (by decide)⟩

/-- C4: for every arrival that passes the hard-capacity check, `DoEnqueue` returns
and replaces the Window by `window` of the whisker that `use_whisker` selects
for the control state as it was before the call, applied to the previous Window;
the packet is rejected (handed to `Drop`, store unchanged) if and only if the
pre-admission occupancy is at least that new Window, and accepted (appended, not
dropped) if and only if it is below it; the stored Window is the new Window in
both outcomes. -/
theorem C4_window_replaced_and_decides (s : KemyQueueDisc) (p : Packet) (now : ℚ) (size : Nat)
    (hsize : s.GetQueueSize = some size)
    (hpass : ¬ (size + 1) % 4294967296 > s.qlim_) :
    ∃ s', s.DoEnqueue p now = some s' ∧
      s'._the_window = (s._whiskers.use_whisker s._memory).window s._the_window ∧
      (size ≥ (s._whiskers.use_whisker s._memory).window s._the_window ↔
        (s'.dropped = s.dropped ++ [p] ∧ s'.q_ = s.q_)) ∧
      (size < (s._whiskers.use_whisker s._memory).window s._the_window ↔
        (s'.dropped = s.dropped ∧ s'.q_ = s.q_.DoEnqueue p)) := by
  by_cases hwin : size ≥ s.newWindow
  · refine ⟨_, DoEnqueue_policy s p now size hsize hpass hwin, ?_, ?_, ?_⟩
    · simp [Drop, newWindow]
    · simpa [Drop, newWindow] using hwin
    · have hnot : ¬ size < (s._whiskers.use_whisker s._memory).window s._the_window :=
        Nat.not_lt.mpr hwin
      simp [Drop, hnot]
  · have hlt : size < s.newWindow := Nat.lt_of_not_le hwin
    refine ⟨_, DoEnqueue_accept s p now size hsize hpass hlt, ?_, ?_, ?_⟩
    · simp [newWindow]
    · have hnot : ¬ size ≥ (s._whiskers.use_whisker s._memory).window s._the_window := hwin
      simp [hnot]
    · simpa [newWindow] using hlt

/-- C4 at a concrete input: bytes mode, 40 bytes stored, constant window 30. -/
theorem C4_window_witness :
    (bytesDisc 30).GetQueueSize = some 40 ∧
    ¬ (40 + 1) % 4294967296 > (bytesDisc 30).qlim_ ∧
    ∃ s', (bytesDisc 30).DoEnqueue ⟨2, 60⟩ 5 = some s' ∧
      s'._the_window = 30 ∧
      (40 ≥ 30 ↔ (s'.dropped = (bytesDisc 30).dropped ++ [⟨2, 60⟩] ∧ s'.q_ = (bytesDisc 30).q_)) ∧
      (40 < 30 ↔
        (s'.dropped = (bytesDisc 30).dropped ∧ s'.q_ = (bytesDisc 30).q_.DoEnqueue ⟨2, 60⟩)) :=
  ⟨by decide, by decide,
    C4_window_replaced_and_decides (bytesDisc 30) ⟨2, 60⟩ 5 40 (by decide) (by decide)⟩

/-! ## Occupancy statistics (C5, C6, C7) -/

/-- The averaging branch of `updateStats`. -/
theorem updateStats_pos (s : KemyQueueDisc) (now : ℚ) (queuesize : Int)
    (h : now - s.total_time_ > 0) :
    s.updateStats now queuesize =
      { s with
        true_ave_ := (s.total_time_ * s.true_ave_ + (now - s.total_time_) * (queuesize : ℚ)) / now
        total_time_ := now } := by
  simp only [updateStats, if_pos h]

/-- The no-op branch of `updateStats`. -/
theorem updateStats_nonpos (s : KemyQueueDisc) (now : ℚ) (queuesize : Int)
    (h : ¬ now - s.total_time_ > 0) :
    s.updateStats now queuesize = s := by
  simp only [updateStats, if_neg h]

/-- C5: over exact arithmetic, for every state and every sample whose elapsed time
`now - total_time_` is positive, `updateStats` sets `true_ave_` to
`(total_time_ * true_ave_ + elapsed * occupancy) / now` and `total_time_` to
`now`; and from the state `(0, 0)` the samples `(0, 0)`, `(2, 1)`, `(5, 3)` give
the average 1 after the sample at time 2 and 11/5 after the sample at time 5. -/
theorem C5_updateStats_formula_and_scenario :
    (∀ (s : KemyQueueDisc) (now : ℚ) (occupancy : Int), now - s.total_time_ > 0 →
      (s.updateStats now occupancy).true_ave_ =
        (s.total_time_ * s.true_ave_ + (now - s.total_time_) * (occupancy : ℚ)) / now ∧
      (s.updateStats now occupancy).total_time_ = now) ∧
    (∀ s : KemyQueueDisc, s.true_ave_ = 0 → s.total_time_ = 0 →
      (s.sampleAll [(0, 0), (2, 1)]).true_ave_ = 1 ∧
      (s.sampleAll [(0, 0), (2, 1), (5, 3)]).true_ave_ = 11 / 5) := by
  refine ⟨fun s now occupancy h => ?_, fun s ha ht => ?_⟩
  · rw [updateStats_pos s now occupancy h]
    exact ⟨rfl, rfl⟩
  · have h0 : s.updateStats 0 (0 : Int) = s :=
      updateStats_nonpos s 0 0 (by rw [ht]; norm_num)
    have h2 : (2 : ℚ) - s.total_time_ > 0 := by rw [ht]; norm_num
    have e2 : (s.updateStats 2 (1 : Int)).true_ave_ = 1 := by
      rw [updateStats_pos s 2 1 h2]
      simp only [ha, ht]
      norm_num
    have t2 : (s.updateStats 2 (1 : Int)).total_time_ = 2 := by
      rw [updateStats_pos s 2 1 h2]
    have h5 : (5 : ℚ) - (s.updateStats 2 (1 : Int)).total_time_ > 0 := by rw [t2]; norm_num
    have e5 : ((s.updateStats 2 (1 : Int)).updateStats 5 (3 : Int)).true_ave_ = 11 / 5 := by
      rw [updateStats_pos _ 5 3 h5]
      simp only [e2, t2]
      norm_num
    constructor
    · show ((s.updateStats 0 (0 : Int)).updateStats 2 (1 : Int)).true_ave_ = 1
      rw [h0]; exact e2
    · show (((s.updateStats 0 (0 : Int)).updateStats 2 (1 : Int)).updateStats 5 (3 : Int)).true_ave_
        = 11 / 5
      rw [h0]; exact e5

/-- C5 at a concrete input: the freshly created controller sampled at time 2 with
occupancy 1. -/
theorem C5_updateStats_witness :
    (2 : ℚ) - (create (constTree 3) QueueMode.QUEUE_MODE_PACKETS 5 1 0).total_time_ > 0 ∧
    ((create (constTree 3) QueueMode.QUEUE_MODE_PACKETS 5 1 0).updateStats 2 1).true_ave_ =
      ((create (constTree 3) QueueMode.QUEUE_MODE_PACKETS 5 1 0).total_time_ *
          (create (constTree 3) QueueMode.QUEUE_MODE_PACKETS 5 1 0).true_ave_ +
        (2 - (create (constTree 3) QueueMode.QUEUE_MODE_PACKETS 5 1 0).total_time_) *
          ((1 : Int) : ℚ)) / 2 ∧
    ((create (constTree 3) QueueMode.QUEUE_MODE_PACKETS 5 1 0).updateStats 2 1).total_time_ = 2 :=
  ⟨by norm_num [create],
    C5_updateStats_formula_and_scenario.1 _ 2 1 (by norm_num [create])⟩

/-- C6: `updateStats` is idempotent at a fixed time: for every state, every `now`
and every two occupancies, a second sample at the same `now` changes nothing (the
whole state, so in particular `true_ave_` and `total_time_`, is that after the
first sample); and every sample with `now ≤ total_time_` leaves the state, so
both `true_ave_` and `total_time_`, unchanged. -/
theorem C6_updateStats_idempotent_at_fixed_time :
    (∀ (s : KemyQueueDisc) (now : ℚ) (o1 o2 : Int),
      (s.updateStats now o1).updateStats now o2 = s.updateStats now o1) ∧
    (∀ (s : KemyQueueDisc) (now : ℚ) (o : Int), now ≤ s.total_time_ →
      s.updateStats now o = s ∧
      (s.updateStats now o).true_ave_ = s.true_ave_ ∧
      (s.updateStats now o).total_time_ = s.total_time_) := by
  have hnoop : ∀ (s : KemyQueueDisc) (now : ℚ) (o : Int), now ≤ s.total_time_ →
      s.updateStats now o = s := fun s now o h =>
    updateStats_nonpos s now o (by simpa using h)
  refine ⟨fun s now o1 o2 => ?_, fun s now o h => ?_⟩
  · by_cases h : now - s.total_time_ > 0
    · apply hnoop
      rw [updateStats_pos s now o1 h]
    · rw [updateStats_nonpos s now o1 h]
      exact updateStats_nonpos s now o2 h
  · rw [hnoop s now o h]
    exact ⟨rfl, rfl, rfl⟩

/-- C6 at a concrete input: a sample at time 0 on the freshly created controller. -/
theorem C6_updateStats_witness :
    (0 : ℚ) ≤ (create (constTree 3) QueueMode.QUEUE_MODE_PACKETS 5 1 0).total_time_ ∧
    (create (constTree 3) QueueMode.QUEUE_MODE_PACKETS 5 1 0).updateStats 0 7 =
      create (constTree 3) QueueMode.QUEUE_MODE_PACKETS 5 1 0 :=
  ⟨by norm_num [create],
    (C6_updateStats_idempotent_at_fixed_time.2 _ 0 7 (by norm_num [create])).1⟩

/-- The invariant behind the time-weighted mean: along strictly increasing sample
times, `true_ave_ * total_time_` accumulates the weighted occupancies. -/
theorem sampleAll_accumulates (samples : List (ℚ × Int)) :
    ∀ (s : KemyQueueDisc), 0 ≤ s.total_time_ →
      List.Chain (· < ·) s.total_time_ (samples.map Prod.fst) →
      (s.sampleAll samples).total_time_ = lastTime s.total_time_ samples ∧
      (s.sampleAll samples).true_ave_ * lastTime s.total_time_ samples =
        s.true_ave_ * s.total_time_ + timeWeightedSum s.total_time_ samples := by
  induction samples with
  | nil =>
    intro s _ _
    simp [sampleAll, lastTime, timeWeightedSum]
  | cons a rest ih =>
    intro s h0 hchain
    rw [List.map_cons, List.chain_cons] at hchain
    obtain ⟨hlt, hrest⟩ := hchain
    have hpos : a.1 - s.total_time_ > 0 := by linarith
    have hne : a.1 ≠ 0 := by
      have : (0 : ℚ) < a.1 := lt_of_le_of_lt h0 hlt
      exact ne_of_gt this
    have hs1 := updateStats_pos s a.1 a.2 hpos
    have ht1 : (s.updateStats a.1 a.2).total_time_ = a.1 := by rw [hs1]
    have ha1 : (s.updateStats a.1 a.2).true_ave_ =
        (s.total_time_ * s.true_ave_ + (a.1 - s.total_time_) * (a.2 : ℚ)) / a.1 := by rw [hs1]
    have h := ih (s.updateStats a.1 a.2) (by rw [ht1]; linarith) (by rw [ht1]; exact hrest)
    rw [ht1] at h
    refine ⟨h.1, ?_⟩
    show (sampleAll (s.updateStats a.1 a.2) rest).true_ave_ * lastTime a.1 rest = _
    rw [h.2, ha1]
    simp only [timeWeightedSum]
    field_simp
    ring

/-- The last time of a non-empty strictly increasing run lies after its start. -/
theorem lastTime_gt (samples : List (ℚ × Int)) :
    ∀ prev : ℚ, samples ≠ [] → List.Chain (· < ·) prev (samples.map Prod.fst) →
      prev < lastTime prev samples := by
  induction samples with
  | nil => intro prev h; exact absurd rfl h
  | cons a rest ih =>
    intro prev _ hchain
    rw [List.map_cons, List.chain_cons] at hchain
    obtain ⟨hlt, hrest⟩ := hchain
    cases rest with
    | nil => simpa [lastTime] using hlt
    | cons b rest2 =>
      have := ih a.1 (by simp) hrest
      show prev < lastTime a.1 (b :: rest2)
      linarith

/-- C7: over exact arithmetic, for every non-empty run of samples
`(t_1, o_1), ..., (t_n, o_n)` with `0 < t_1 < ... < t_n`, applied in order by
`updateStats` from a state with `(true_ave_, total_time_) = (0, 0)`, the
running average ends as `(sum of (t_i - t_(i-1)) * o_i) / t_n` with `t_0 = 0`,
and `total_time_` ends as `t_n`. -/
theorem C7_time_weighted_mean (s : KemyQueueDisc) (samples : List (ℚ × Int))
    (hne : samples ≠ [])
    (hinc : List.Chain (· < ·) (0 : ℚ) (samples.map Prod.fst))
    (havg0 : s.true_ave_ = 0) (htime0 : s.total_time_ = 0) :
    (s.sampleAll samples).true_ave_ = timeWeightedSum 0 samples / lastTime 0 samples ∧
    (s.sampleAll samples).total_time_ = lastTime 0 samples := by
  have h := sampleAll_accumulates samples s (by rw [htime0]) (by rw [htime0]; exact hinc)
  rw [htime0, havg0] at h
  have hpos : (0 : ℚ) < lastTime 0 samples := lastTime_gt samples 0 hne hinc
  refine ⟨?_, h.1⟩
  rw [eq_div_iff (ne_of_gt hpos), h.2]
  ring

/-- C7 at a concrete input: the samples `(2, 1)`, `(5, 3)` on the freshly created
controller. -/
theorem C7_time_weighted_mean_witness :
    ([(2, 1), (5, 3)] : List (ℚ × Int)) ≠ [] ∧
    List.Chain (· < ·) (0 : ℚ) (([(2, 1), (5, 3)] : List (ℚ × Int)).map Prod.fst) ∧
    (create (constTree 3) QueueMode.QUEUE_MODE_PACKETS 5 1 0).true_ave_ = 0 ∧
    (create (constTree 3) QueueMode.QUEUE_MODE_PACKETS 5 1 0).total_time_ = 0 ∧
    ((create (constTree 3) QueueMode.QUEUE_MODE_PACKETS 5 1 0).sampleAll
        [(2, 1), (5, 3)]).true_ave_ =
      timeWeightedSum 0 [(2, 1), (5, 3)] / lastTime 0 [(2, 1), (5, 3)] ∧
    ((create (constTree 3) QueueMode.QUEUE_MODE_PACKETS 5 1 0).sampleAll
        [(2, 1), (5, 3)]).total_time_ = lastTime 0 [(2, 1), (5, 3)] :=
  ⟨by simp, by norm_num, rfl, rfl,
    C7_time_weighted_mean _ [(2, 1), (5, 3)] (by simp) (by norm_num) rfl rfl⟩

/-! ## Runs of arrivals under a constant window (C8, C9) -/

/-- In packets mode the occupancy is the packet count. -/
theorem GetQueueSize_packets (s : KemyQueueDisc)
    (hmode : s.GetMode = QueueMode.QUEUE_MODE_PACKETS) :
    s.GetQueueSize = some s.q_.GetNPackets := by
  simp [GetQueueSize, hmode]

/-- The 32-bit sum `size + 1` never exceeds the exact sum. -/
theorem wrapped_succ_le (size qlim : Nat) (h : size + 1 ≤ qlim) :
    ¬ (size + 1) % 4294967296 > qlim :=
  Nat.not_lt.mpr (le_trans (Nat.mod_le _ _) h)

/-- What the acceptance exit leaves behind, field by field. -/
theorem DoEnqueue_accept_fields (s : KemyQueueDisc) (p : Packet) (now : ℚ) (size : Nat)
    (hsize : s.GetQueueSize = some size)
    (hlim : ¬ (size + 1) % 4294967296 > s.qlim_)
    (hwin : size < s.newWindow) :
    ∃ s1, s.DoEnqueue p now = some s1 ∧
      s1.q_ = s.q_.DoEnqueue p ∧ s1.dropped = s.dropped ∧
      s1._memory = s._memory.packet_receive now s.q_.length ∧
      s1._the_window = s.newWindow ∧
      s1._whiskers = s._whiskers ∧ s1.GetMode = s.GetMode ∧ s1.qlim_ = s.qlim_ := by
  refine ⟨_, DoEnqueue_accept s p now size hsize hlim hwin, ?_, ?_, ?_, ?_, ?_, ?_, ?_⟩ <;>
    simp [GetMode]

/-- What the policy-drop exit leaves behind, field by field. -/
theorem DoEnqueue_policy_fields (s : KemyQueueDisc) (p : Packet) (now : ℚ) (size : Nat)
    (hsize : s.GetQueueSize = some size)
    (hlim : ¬ (size + 1) % 4294967296 > s.qlim_)
    (hwin : size ≥ s.newWindow) :
    ∃ s1, s.DoEnqueue p now = some s1 ∧
      s1.q_ = s.q_ ∧ s1.dropped = s.dropped ++ [p] ∧
      s1._memory = s._memory.packet_drop now s.q_.length ∧
      s1._the_window = s.newWindow ∧
      s1._whiskers = s._whiskers ∧ s1.GetMode = s.GetMode ∧ s1.qlim_ = s.qlim_ := by
  refine ⟨_, DoEnqueue_policy s p now size hsize hlim hwin, ?_, ?_, ?_, ?_, ?_, ?_, ?_⟩ <;>
    simp [GetMode, Drop]

/-- What the hard-limit exit leaves behind, field by field. -/
theorem DoEnqueue_hard_fields (s : KemyQueueDisc) (p : Packet) (now : ℚ) (size : Nat)
    (hsize : s.GetQueueSize = some size)
    (hlim : (size + 1) % 4294967296 > s.qlim_) :
    ∃ s1, s.DoEnqueue p now = some s1 ∧
      s1.q_ = s.q_ ∧ s1.dropped = s.dropped ++ [p] ∧
      s1._memory = s._memory ∧
      s1._the_window = s._the_window ∧
      s1._whiskers = s._whiskers ∧ s1.GetMode = s.GetMode ∧ s1.qlim_ = s.qlim_ := by
  refine ⟨_, DoEnqueue_hard s p now size hsize hlim, ?_, ?_, ?_, ?_, ?_, ?_, ?_⟩ <;>
    simp [GetMode, Drop]

/-- A run of arrivals under a constant window `w` below the capacity, in packets
mode, from a store of at most `w` packets: the run returns, the arrivals that
fill the store up to `w` packets are appended in order, all later ones are handed
to `Drop`, and the configuration is untouched. -/
theorem enqueueAll_const_window (w : Nat) (arrivals : List (Packet × ℚ)) :
    ∀ s : KemyQueueDisc, s.GetMode = QueueMode.QUEUE_MODE_PACKETS →
      (∀ m prev, (s._whiskers.use_whisker m).window prev = w) →
      w < s.qlim_ → s.q_.GetNPackets ≤ w →
      ∃ s', s.enqueueAll arrivals = some s' ∧
        s'.q_.items = s.q_.items ++ (arrivals.take (w - s.q_.GetNPackets)).map Prod.fst ∧
        s'.dropped = s.dropped ++ (arrivals.drop (w - s.q_.GetNPackets)).map Prod.fst ∧
        s'._whiskers = s._whiskers ∧ s'.GetMode = s.GetMode ∧ s'.qlim_ = s.qlim_ := by
  induction arrivals with
  | nil => intro s _ _ _ _; exact ⟨s, rfl, by simp, by simp, rfl, rfl, rfl⟩
  | cons a rest ih =>
    intro s hmode hrule hcap hle
    have hsize := GetQueueSize_packets s hmode
    have hnw : s.newWindow = w := hrule _ _
    have hpass : ¬ (s.q_.GetNPackets + 1) % 4294967296 > s.qlim_ :=
      wrapped_succ_le _ _ (by omega)
    by_cases hlt : s.q_.GetNPackets < w
    · obtain ⟨s1, hstep, hq1, hd1, _, _, hw1, hm1, hl1⟩ :=
        DoEnqueue_accept_fields s a.1 a.2 _ hsize hpass (by rw [hnw]; exact hlt)
      have hn1 : s1.q_.GetNPackets = s.q_.GetNPackets + 1 := by
        rw [hq1]; simp [PacketQueue.DoEnqueue, PacketQueue.GetNPackets]
      obtain ⟨s', hrun, hitems, hdrop, hwh, hmd, hql⟩ :=
        ih s1 (by rw [hm1]; exact hmode) (by rw [hw1]; exact hrule) (by rw [hl1]; exact hcap)
          (by omega)
      refine ⟨s', by simp only [enqueueAll, hstep]; exact hrun, ?_, ?_,
        hwh.trans hw1, hmd.trans hm1, hql.trans hl1⟩
      · rw [hitems, hn1, hq1]
        have hk : w - s.q_.GetNPackets = (w - (s.q_.GetNPackets + 1)) + 1 := by omega
        rw [hk]
        simp [PacketQueue.DoEnqueue]
      · rw [hdrop, hn1, hd1]
        have hk : w - s.q_.GetNPackets = (w - (s.q_.GetNPackets + 1)) + 1 := by omega
        rw [hk]
        simp
    · have hge : s.q_.GetNPackets ≥ s.newWindow := by rw [hnw]; omega
      obtain ⟨s1, hstep, hq1, hd1, _, _, hw1, hm1, hl1⟩ :=
        DoEnqueue_policy_fields s a.1 a.2 _ hsize hpass hge
      obtain ⟨s', hrun, hitems, hdrop, hwh, hmd, hql⟩ :=
        ih s1 (by rw [hm1]; exact hmode) (by rw [hw1]; exact hrule) (by rw [hl1]; exact hcap)
          (by rw [hq1]; exact hle)
      have hk : w - s.q_.GetNPackets = 0 := by omega
      refine ⟨s', by simp only [enqueueAll, hstep]; exact hrun, ?_, ?_,
        hwh.trans hw1, hmd.trans hm1, hql.trans hl1⟩
      · rw [hitems, hq1, hk]; simp
      · rw [hdrop, hq1, hd1, hk]; simp

/-- A run of arrivals under a capacity limit `qlim_` that the constant window `w`
never undercuts, in packets mode, the 32-bit sum `qlim_ + 1` being representable,
from a store of at most `qlim_` packets: the run returns, the arrivals that fill
the store up to `qlim_` packets are appended in order, all later ones are handed
to `Drop`, and the configuration is untouched. -/
theorem enqueueAll_hard_limit (w : Nat) (arrivals : List (Packet × ℚ)) :
    ∀ s : KemyQueueDisc, s.GetMode = QueueMode.QUEUE_MODE_PACKETS →
      (∀ m prev, (s._whiskers.use_whisker m).window prev = w) →
      s.qlim_ ≤ w → s.qlim_ + 1 < 4294967296 → s.q_.GetNPackets ≤ s.qlim_ →
      ∃ s', s.enqueueAll arrivals = some s' ∧
        s'.q_.items = s.q_.items ++ (arrivals.take (s.qlim_ - s.q_.GetNPackets)).map Prod.fst ∧
        s'.dropped = s.dropped ++ (arrivals.drop (s.qlim_ - s.q_.GetNPackets)).map Prod.fst ∧
        s'._whiskers = s._whiskers ∧ s'.GetMode = s.GetMode ∧ s'.qlim_ = s.qlim_ := by
  induction arrivals with
  | nil => intro s _ _ _ _ _; exact ⟨s, rfl, by simp, by simp, rfl, rfl, rfl⟩
  | cons a rest ih =>
    intro s hmode hrule hcap hfit hle
    have hsize := GetQueueSize_packets s hmode
    have hnw : s.newWindow = w := hrule _ _
    by_cases hlt : s.q_.GetNPackets < s.qlim_
    · have hpass : ¬ (s.q_.GetNPackets + 1) % 4294967296 > s.qlim_ :=
        wrapped_succ_le _ _ (by omega)
      obtain ⟨s1, hstep, hq1, hd1, _, _, hw1, hm1, hl1⟩ :=
        DoEnqueue_accept_fields s a.1 a.2 _ hsize hpass (by rw [hnw]; omega)
      have hn1 : s1.q_.GetNPackets = s.q_.GetNPackets + 1 := by
        rw [hq1]; simp [PacketQueue.DoEnqueue, PacketQueue.GetNPackets]
      obtain ⟨s', hrun, hitems, hdrop, hwh, hmd, hql⟩ :=
        ih s1 (by rw [hm1]; exact hmode) (by rw [hw1]; exact hrule) (by rw [hl1]; exact hcap)
          (by rw [hl1]; exact hfit) (by rw [hl1]; omega)
      refine ⟨s', by simp only [enqueueAll, hstep]; exact hrun, ?_, ?_,
        hwh.trans hw1, hmd.trans hm1, hql.trans hl1⟩
      · rw [hitems, hn1, hq1, hl1]
        have hk : s.qlim_ - s.q_.GetNPackets = (s.qlim_ - (s.q_.GetNPackets + 1)) + 1 := by
          omega
        rw [hk]
        simp [PacketQueue.DoEnqueue]
      · rw [hdrop, hn1, hd1, hl1]
        have hk : s.qlim_ - s.q_.GetNPackets = (s.qlim_ - (s.q_.GetNPackets + 1)) + 1 := by
          omega
        rw [hk]
        simp
    · have hover : (s.q_.GetNPackets + 1) % 4294967296 > s.qlim_ := by
        rw [Nat.mod_eq_of_lt (by omega)]; omega
      obtain ⟨s1, hstep, hq1, hd1, _, _, hw1, hm1, hl1⟩ :=
        DoEnqueue_hard_fields s a.1 a.2 _ hsize hover
      obtain ⟨s', hrun, hitems, hdrop, hwh, hmd, hql⟩ :=
        ih s1 (by rw [hm1]; exact hmode) (by rw [hw1]; exact hrule) (by rw [hl1]; exact hcap)
          (by rw [hl1]; exact hfit) (by rw [hq1, hl1]; exact hle)
      have hk : s.qlim_ - s.q_.GetNPackets = 0 := by omega
      refine ⟨s', by simp only [enqueueAll, hstep]; exact hrun, ?_, ?_,
        hwh.trans hw1, hmd.trans hm1, hql.trans hl1⟩
      · rw [hitems, hq1, hl1, hk]; simp
      · rw [hdrop, hq1, hd1, hl1, hk]; simp

/-- C8: in packets mode, under a policy table whose every rule has the constant
window `w`, with `w` below the capacity limit and the store empty at the start,
any run `pre` of arrivals followed by one more arrival `a` returns; the store
after `pre` holds the first `w` packets of `pre` and the later ones were dropped;
if fewer than `w` arrivals came before, `a` is accepted and the occupancy becomes
the number of arrivals so far (1, 2, ..., w); otherwise `a` is rejected on the
policy path (a `packet_drop` observation at occupancy `w`, the packet handed to
`Drop`) and the occupancy stays `w`.  With capacity 5 and `w = 3` the first three
arrivals are in the store and the fourth is rejected by policy at occupancy 3. -/
theorem C8_constant_window_below_capacity :
    (∀ (s : KemyQueueDisc) (w : Nat) (pre : List (Packet × ℚ)) (a : Packet × ℚ),
      s.GetMode = QueueMode.QUEUE_MODE_PACKETS →
      (∀ m prev, (s._whiskers.use_whisker m).window prev = w) →
      w < s.qlim_ → s.q_.items = [] →
      ∃ sk sk1, s.enqueueAll pre = some sk ∧ sk.DoEnqueue a.1 a.2 = some sk1 ∧
        sk.q_.items = (pre.take w).map Prod.fst ∧
        sk.dropped = s.dropped ++ (pre.drop w).map Prod.fst ∧
        (pre.length < w →
          sk1.q_.items = sk.q_.items ++ [a.1] ∧ sk1.dropped = sk.dropped ∧
          sk1.GetQueueSize = some (pre.length + 1) ∧
          sk1._memory = sk._memory.packet_receive a.2 pre.length) ∧
        (w ≤ pre.length →
          sk1.q_ = sk.q_ ∧ sk1.dropped = sk.dropped ++ [a.1] ∧
          sk1.GetQueueSize = some w ∧
          sk1._memory = sk._memory.packet_drop a.2 w ∧ sk1._the_window = w)) ∧
    (∀ (summarystats qib : Nat) (a1 a2 a3 a4 : Packet × ℚ),
      ∃ s3 s4,
        (create (constTree 3) QueueMode.QUEUE_MODE_PACKETS 5 summarystats qib).enqueueAll
          [a1, a2, a3] = some s3 ∧
        s3.DoEnqueue a4.1 a4.2 = some s4 ∧
        s3.q_.items = [a1.1, a2.1, a3.1] ∧ s3.dropped = [] ∧
        s4.q_.items = [a1.1, a2.1, a3.1] ∧ s4.dropped = [a4.1] ∧
        s4.GetQueueSize = some 3 ∧
        s4._memory = s3._memory.packet_drop a4.2 3) := by
  have general : ∀ (s : KemyQueueDisc) (w : Nat) (pre : List (Packet × ℚ)) (a : Packet × ℚ),
      s.GetMode = QueueMode.QUEUE_MODE_PACKETS →
      (∀ m prev, (s._whiskers.use_whisker m).window prev = w) →
      w < s.qlim_ → s.q_.items = [] →
      ∃ sk sk1, s.enqueueAll pre = some sk ∧ sk.DoEnqueue a.1 a.2 = some sk1 ∧
        sk.q_.items = (pre.take w).map Prod.fst ∧
        sk.dropped = s.dropped ++ (pre.drop w).map Prod.fst ∧
        (pre.length < w →
          sk1.q_.items = sk.q_.items ++ [a.1] ∧ sk1.dropped = sk.dropped ∧
          sk1.GetQueueSize = some (pre.length + 1) ∧
          sk1._memory = sk._memory.packet_receive a.2 pre.length) ∧
        (w ≤ pre.length →
          sk1.q_ = sk.q_ ∧ sk1.dropped = sk.dropped ++ [a.1] ∧
          sk1.GetQueueSize = some w ∧
          sk1._memory = sk._memory.packet_drop a.2 w ∧ sk1._the_window = w) := by
    intro s w pre a hmode hrule hcap hempty
    have hn0 : s.q_.GetNPackets = 0 := by simp [PacketQueue.GetNPackets, hempty]
    obtain ⟨sk, hrun, hitems, hdrop, hwh, hmd, hql⟩ :=
      enqueueAll_const_window w pre s hmode hrule hcap (by omega)
    rw [hn0, hempty] at hitems
    rw [hn0] at hdrop
    simp only [Nat.sub_zero, List.nil_append] at hitems hdrop
    have hmodek : sk.GetMode = QueueMode.QUEUE_MODE_PACKETS := hmd.trans hmode
    have hnk : sk.q_.GetNPackets = min pre.length w := by
      simp [PacketQueue.GetNPackets, hitems, Nat.min_comm]
    have hsize := GetQueueSize_packets sk hmodek
    have hnw : sk.newWindow = w := by unfold newWindow; rw [hwh]; exact hrule _ _
    have hpass : ¬ (sk.q_.GetNPackets + 1) % 4294967296 > sk.qlim_ :=
      wrapped_succ_le _ _ (by rw [hql, hnk]; omega)
    by_cases hlt : pre.length < w
    · have hnk2 : sk.q_.GetNPackets = pre.length := by rw [hnk]; omega
      obtain ⟨sk1, hstep, hq1, hd1, hm1, _, _, hmode1, _⟩ :=
        DoEnqueue_accept_fields sk a.1 a.2 _ hsize hpass (by rw [hnw, hnk2]; exact hlt)
      refine ⟨sk, sk1, hrun, hstep, hitems, hdrop, fun _ => ⟨?_, hd1, ?_, ?_⟩,
        fun hge => absurd hlt (by omega)⟩
      · rw [hq1]; simp [PacketQueue.DoEnqueue]
      · rw [GetQueueSize_packets sk1 (hmode1.trans hmodek), hq1]
        simp only [PacketQueue.DoEnqueue, PacketQueue.GetNPackets] at hnk2 ⊢
        simp [hnk2]
      · rw [hm1, PacketQueue.length, hnk2]
    · have hnk2 : sk.q_.GetNPackets = w := by rw [hnk]; omega
      obtain ⟨sk1, hstep, hq1, hd1, hm1, hw1, _, hmode1, _⟩ :=
        DoEnqueue_policy_fields sk a.1 a.2 _ hsize hpass (by rw [hnw, hnk2])
      refine ⟨sk, sk1, hrun, hstep, hitems, hdrop, fun h => absurd h hlt,
        fun _ => ⟨hq1, hd1, ?_, ?_, hw1.trans hnw⟩⟩
      · rw [GetQueueSize_packets sk1 (hmode1.trans hmodek), hq1, hnk2]
      · rw [hm1, PacketQueue.length, hnk2]
  refine ⟨general, fun summarystats qib a1 a2 a3 a4 => ?_⟩
  obtain ⟨s3, s4, hrun, hstep, hitems, hdrop, _, hrej⟩ :=
    general (create (constTree 3) QueueMode.QUEUE_MODE_PACKETS 5 summarystats qib) 3
      [a1, a2, a3] a4 rfl (fun _ _ => rfl) (by simp [create]) rfl
  obtain ⟨hq4, hd4, hsz4, hm4, _⟩ := hrej (by simp)
  refine ⟨s3, s4, hrun, hstep, by simpa using hitems, by simpa [create] using hdrop, ?_, ?_,
    hsz4, hm4⟩
  · rw [hq4]; simpa using hitems
  · rw [hd4]; simpa [create] using hdrop

/-- C8 at a concrete input: capacity 5, constant window 3, three earlier arrivals. -/
theorem C8_constant_window_witness :
    (create (constTree 3) QueueMode.QUEUE_MODE_PACKETS 5 1 0).GetMode =
      QueueMode.QUEUE_MODE_PACKETS ∧
    (∀ m prev, (((create (constTree 3) QueueMode.QUEUE_MODE_PACKETS 5 1 0)._whiskers).use_whisker
      m).window prev = 3) ∧
    3 < (create (constTree 3) QueueMode.QUEUE_MODE_PACKETS 5 1 0).qlim_ ∧
    (create (constTree 3) QueueMode.QUEUE_MODE_PACKETS 5 1 0).q_.items = [] ∧
    ∃ sk sk1,
      (create (constTree 3) QueueMode.QUEUE_MODE_PACKETS 5 1 0).enqueueAll
        [(⟨1, 100⟩, 0), (⟨2, 100⟩, 1), (⟨3, 100⟩, 2)] = some sk ∧
      sk.DoEnqueue ⟨4, 100⟩ 3 = some sk1 ∧
      sk1.q_ = sk.q_ ∧ sk1.dropped = sk.dropped ++ [⟨4, 100⟩] ∧
      sk1.GetQueueSize = some 3 ∧
      sk1._memory = sk._memory.packet_drop 3 3 ∧ sk1._the_window = 3 := by
  obtain ⟨sk, sk1, hrun, hstep, _, _, _, hrej⟩ :=
    C8_constant_window_below_capacity.1
      (create (constTree 3) QueueMode.QUEUE_MODE_PACKETS 5 1 0) 3
      [(⟨1, 100⟩, 0), (⟨2, 100⟩, 1), (⟨3, 100⟩, 2)] (⟨4, 100⟩, 3)
      rfl (fun _ _ => rfl) (by decide) rfl
  exact ⟨rfl, fun _ _ => rfl, by decide, rfl, sk, sk1, hrun, hstep, hrej (by decide)⟩

/-- C9: in packets mode, under a policy table whose every rule has the constant
window `w`, with `w` at least the capacity limit `qlim_` (a limit below the
largest 32-bit value, so that `qlim_ + 1` is representable) and the store empty
at the start, any run `pre` of arrivals followed by one more arrival `a`
returns; the store after `pre` holds the first `qlim_` packets of `pre` and the
later ones were dropped; if fewer than `qlim_` arrivals came before, `a` is
accepted and the occupancy becomes the number of arrivals so far (1, ..., qlim_);
otherwise `a` is rejected by the hard-capacity check (handed to `Drop`, control
state and Window untouched, whatever the window is) and the occupancy stays
`qlim_`.  With capacity 2 and `w = 10` the first two arrivals are in the store
and the third is rejected by the hard limit. -/
theorem C9_hard_limit_under_unconstraining_window :
    (∀ (s : KemyQueueDisc) (w : Nat) (pre : List (Packet × ℚ)) (a : Packet × ℚ),
      s.GetMode = QueueMode.QUEUE_MODE_PACKETS →
      (∀ m prev, (s._whiskers.use_whisker m).window prev = w) →
      s.qlim_ ≤ w → s.qlim_ + 1 < 4294967296 → s.q_.items = [] →
      ∃ sk sk1, s.enqueueAll pre = some sk ∧ sk.DoEnqueue a.1 a.2 = some sk1 ∧
        sk.q_.items = (pre.take s.qlim_).map Prod.fst ∧
        sk.dropped = s.dropped ++ (pre.drop s.qlim_).map Prod.fst ∧
        (pre.length < s.qlim_ →
          sk1.q_.items = sk.q_.items ++ [a.1] ∧ sk1.dropped = sk.dropped ∧
          sk1.GetQueueSize = some (pre.length + 1) ∧
          sk1._memory = sk._memory.packet_receive a.2 pre.length) ∧
        (s.qlim_ ≤ pre.length →
          sk1.q_ = sk.q_ ∧ sk1.dropped = sk.dropped ++ [a.1] ∧
          sk1.GetQueueSize = some s.qlim_ ∧
          sk1._memory = sk._memory ∧ sk1._the_window = sk._the_window)) ∧
    (∀ (summarystats qib : Nat) (a1 a2 a3 : Packet × ℚ),
      ∃ s2 s3,
        (create (constTree 10) QueueMode.QUEUE_MODE_PACKETS 2 summarystats qib).enqueueAll
          [a1, a2] = some s2 ∧
        s2.DoEnqueue a3.1 a3.2 = some s3 ∧
        s2.q_.items = [a1.1, a2.1] ∧ s2.dropped = [] ∧
        s3.q_.items = [a1.1, a2.1] ∧ s3.dropped = [a3.1] ∧
        s3.GetQueueSize = some 2 ∧
        s3._memory = s2._memory ∧ s3._the_window = s2._the_window) := by
  have general : ∀ (s : KemyQueueDisc) (w : Nat) (pre : List (Packet × ℚ)) (a : Packet × ℚ),
      s.GetMode = QueueMode.QUEUE_MODE_PACKETS →
      (∀ m prev, (s._whiskers.use_whisker m).window prev = w) →
      s.qlim_ ≤ w → s.qlim_ + 1 < 4294967296 → s.q_.items = [] →
      ∃ sk sk1, s.enqueueAll pre = some sk ∧ sk.DoEnqueue a.1 a.2 = some sk1 ∧
        sk.q_.items = (pre.take s.qlim_).map Prod.fst ∧
        sk.dropped = s.dropped ++ (pre.drop s.qlim_).map Prod.fst ∧
        (pre.length < s.qlim_ →
          sk1.q_.items = sk.q_.items ++ [a.1] ∧ sk1.dropped = sk.dropped ∧
          sk1.GetQueueSize = some (pre.length + 1) ∧
          sk1._memory = sk._memory.packet_receive a.2 pre.length) ∧
        (s.qlim_ ≤ pre.length →
          sk1.q_ = sk.q_ ∧ sk1.dropped = sk.dropped ++ [a.1] ∧
          sk1.GetQueueSize = some s.qlim_ ∧
          sk1._memory = sk._memory ∧ sk1._the_window = sk._the_window) := by
    intro s w pre a hmode hrule hcap hfit hempty
    have hn0 : s.q_.GetNPackets = 0 := by simp [PacketQueue.GetNPackets, hempty]
    obtain ⟨sk, hrun, hitems, hdrop, hwh, hmd, hql⟩ :=
      enqueueAll_hard_limit w pre s hmode hrule hcap hfit (by omega)
    rw [hn0, hempty] at hitems
    rw [hn0] at hdrop
    simp only [Nat.sub_zero, List.nil_append] at hitems hdrop
    have hmodek : sk.GetMode = QueueMode.QUEUE_MODE_PACKETS := hmd.trans hmode
    have hnk : sk.q_.GetNPackets = min pre.length s.qlim_ := by
      simp [PacketQueue.GetNPackets, hitems, Nat.min_comm]
    have hsize := GetQueueSize_packets sk hmodek
    have hnw : sk.newWindow = w := by unfold newWindow; rw [hwh]; exact hrule _ _
    by_cases hlt : pre.length < s.qlim_
    · have hnk2 : sk.q_.GetNPackets = pre.length := by rw [hnk]; omega
      have hpass : ¬ (sk.q_.GetNPackets + 1) % 4294967296 > sk.qlim_ :=
        wrapped_succ_le _ _ (by rw [hql, hnk2]; omega)
      obtain ⟨sk1, hstep, hq1, hd1, hm1, _, _, hmode1, _⟩ :=
        DoEnqueue_accept_fields sk a.1 a.2 _ hsize hpass (by rw [hnw, hnk2]; omega)
      refine ⟨sk, sk1, hrun, hstep, hitems, hdrop, fun _ => ⟨?_, hd1, ?_, ?_⟩,
        fun hge => absurd hlt (by omega)⟩
      · rw [hq1]; simp [PacketQueue.DoEnqueue]
      · rw [GetQueueSize_packets sk1 (hmode1.trans hmodek), hq1]
        simp only [PacketQueue.DoEnqueue, PacketQueue.GetNPackets] at hnk2 ⊢
        simp [hnk2]
      · rw [hm1, PacketQueue.length, hnk2]
    · have hnk2 : sk.q_.GetNPackets = s.qlim_ := by rw [hnk]; omega
      have hover : (sk.q_.GetNPackets + 1) % 4294967296 > sk.qlim_ := by
        rw [hql, hnk2, Nat.mod_eq_of_lt hfit]; omega
      obtain ⟨sk1, hstep, hq1, hd1, hm1, hw1, _, hmode1, _⟩ :=
        DoEnqueue_hard_fields sk a.1 a.2 _ hsize hover
      refine ⟨sk, sk1, hrun, hstep, hitems, hdrop, fun h => absurd h hlt,
        fun _ => ⟨hq1, hd1, ?_, hm1, hw1⟩⟩
      rw [GetQueueSize_packets sk1 (hmode1.trans hmodek), hq1, hnk2]
  refine ⟨general, fun summarystats qib a1 a2 a3 => ?_⟩
  obtain ⟨s2, s3, hrun, hstep, hitems, hdrop, _, hrej⟩ :=
    general (create (constTree 10) QueueMode.QUEUE_MODE_PACKETS 2 summarystats qib) 10
      [a1, a2] a3 rfl (fun _ _ => rfl) (by simp [create]) (by simp [create]) rfl
  obtain ⟨hq3, hd3, hsz3, hm3, hw3⟩ := hrej (by simp [create])
  refine ⟨s2, s3, hrun, hstep, by simpa [create] using hitems,
    by simpa [create] using hdrop, ?_, ?_, by simpa [create] using hsz3, hm3, hw3⟩
  · rw [hq3]; simpa [create] using hitems
  · rw [hd3]; simpa [create] using hdrop

/-- C9 at a concrete input: capacity 2, constant window 10, two earlier arrivals. -/
theorem C9_hard_limit_witness :
    (create (constTree 10) QueueMode.QUEUE_MODE_PACKETS 2 1 0).GetMode =
      QueueMode.QUEUE_MODE_PACKETS ∧
    (∀ m prev, (((create (constTree 10) QueueMode.QUEUE_MODE_PACKETS 2 1 0)._whiskers).use_whisker
      m).window prev = 10) ∧
    (create (constTree 10) QueueMode.QUEUE_MODE_PACKETS 2 1 0).qlim_ ≤ 10 ∧
    (create (constTree 10) QueueMode.QUEUE_MODE_PACKETS 2 1 0).qlim_ + 1 < 4294967296 ∧
    (create (constTree 10) QueueMode.QUEUE_MODE_PACKETS 2 1 0).q_.items = [] ∧
    ∃ sk sk1,
      (create (constTree 10) QueueMode.QUEUE_MODE_PACKETS 2 1 0).enqueueAll
        [(⟨1, 100⟩, 0), (⟨2, 100⟩, 1)] = some sk ∧
      sk.DoEnqueue ⟨3, 100⟩ 2 = some sk1 ∧
      sk1.q_ = sk.q_ ∧ sk1.dropped = sk.dropped ++ [⟨3, 100⟩] ∧
      sk1.GetQueueSize = some 2 ∧
      sk1._memory = sk._memory ∧ sk1._the_window = sk._the_window := by
  obtain ⟨sk, sk1, hrun, hstep, _, _, _, hrej⟩ :=
    C9_hard_limit_under_unconstraining_window.1
      (create (constTree 10) QueueMode.QUEUE_MODE_PACKETS 2 1 0) 10
      [(⟨1, 100⟩, 0), (⟨2, 100⟩, 1)] (⟨3, 100⟩, 2)
      rfl (fun _ _ => rfl) (by decide) (by decide) rfl
  exact ⟨rfl, fun _ _ => rfl, by decide, by decide, rfl, sk, sk1, hrun, hstep, hrej (by decide)⟩

/-! ## Bytes mode and the hard-capacity check (C10) -/

/-- C10, evaluated on the code: in bytes mode with a capacity limit of 50 bytes
and an empty store, a packet of 100 bytes (so byteCount + size = 100 > 50) is not
rejected at the hard-capacity check, which tests byteCount + 1 against the limit:
the arrival reaches the policy lookup (the Window becomes 10, a `packet_receive`
observation is fed to the control state) and is accepted, leaving 100 bytes in
the store. -/
theorem C10_bytes_mode_oversize_packet_admitted :
    bytesLimit50.GetMode = QueueMode.QUEUE_MODE_BYTES ∧
    bytesLimit50.q_.GetNBytes + (Packet.mk 1 100).size > bytesLimit50.qlim_ ∧
    ∃ s', bytesLimit50.DoEnqueue ⟨1, 100⟩ 0 = some s' ∧
      s'.q_.items = [⟨1, 100⟩] ∧ s'.dropped = [] ∧
      s'._the_window = 10 ∧
      s'._memory.events = [MemoryEvent.packet_receive 0 0] ∧
      s'.GetQueueSize = some 100 ∧ s'.qlim_ = 50 := by
  refine ⟨rfl, by decide, _,
    DoEnqueue_accept bytesLimit50 ⟨1, 100⟩ 0 0 (by decide) (by decide) (by decide), ?_⟩
  simp [bytesLimit50, create, PacketQueue.DoEnqueue, Memory.packet_receive, newWindow,
    constTree, GetQueueSize, GetMode, PacketQueue.GetNBytes, PacketQueue.length,
    PacketQueue.GetNPackets]

/-! ## Departure path (C11) -/

/-- The statistics step that opens `DoDequeue`, written with `enqueueStats`: the two
paths take the same sample. -/
theorem DoDequeue_eq (s : KemyQueueDisc) (now : ℚ) :
    s.DoDequeue now =
      (((s.enqueueStats now).q_.DoDequeue).1,
        { s.enqueueStats now with q_ := ((s.enqueueStats now).q_.DoDequeue).2 }) := by
  simp only [DoDequeue, enqueueStats, PacketQueue.byteLength, PacketQueue.length]

/-- What a departure leaves untouched. -/
theorem DoDequeue_frame (s : KemyQueueDisc) (now : ℚ) :
    (s.DoDequeue now).2._memory = s._memory ∧
    (s.DoDequeue now).2._the_window = s._the_window ∧
    (s.DoDequeue now).2._whiskers = s._whiskers ∧
    (s.DoDequeue now).2.GetMode = s.GetMode ∧
    (s.DoDequeue now).2.qlim_ = s.qlim_ ∧
    (s.DoDequeue now).2.dropped = s.dropped ∧
    (s.DoDequeue now).2.summarystats = s.summarystats ∧
    (s.DoDequeue now).2.qib_ = s.qib_ := by
  rw [DoDequeue_eq]
  simp [GetMode]

/-- C11: `DoDequeue` never changes the control state `_memory` nor the Window
`_the_window`; when the store is non-empty it returns the head packet and the
store afterwards is the store without exactly that packet; when the store is
empty it returns nothing and leaves the store as it was. -/
theorem C11_dequeue_leaves_control_state (s : KemyQueueDisc) (now : ℚ) :
    (s.DoDequeue now).2._memory = s._memory ∧
    (s.DoDequeue now).2._the_window = s._the_window ∧
    (∀ p rest, s.q_.items = p :: rest →
      (s.DoDequeue now).1 = some p ∧ (s.DoDequeue now).2.q_.items = rest) ∧
    (s.q_.items = [] →
      (s.DoDequeue now).1 = none ∧ (s.DoDequeue now).2.q_ = s.q_) := by
  refine ⟨(DoDequeue_frame s now).1, (DoDequeue_frame s now).2.1, ?_, ?_⟩
  · intro p rest h
    rw [DoDequeue_eq]
    simp [PacketQueue.DoDequeue, h]
  · intro h
    rw [DoDequeue_eq]
    simp [PacketQueue.DoDequeue, h]

/-- C11 at a concrete input: a departure at time 3 from a store of two packets. -/
theorem C11_dequeue_witness :
    fullDisc.q_.items = [⟨1, 40⟩, ⟨2, 60⟩] ∧
    (fullDisc.DoDequeue 3).1 = some ⟨1, 40⟩ ∧
    (fullDisc.DoDequeue 3).2.q_.items = [⟨2, 60⟩] ∧
    (fullDisc.DoDequeue 3).2._memory = fullDisc._memory ∧
    (fullDisc.DoDequeue 3).2._the_window = fullDisc._the_window :=
  ⟨rfl,
    ((C11_dequeue_leaves_control_state fullDisc 3).2.2.1 ⟨1, 40⟩ [⟨2, 60⟩] rfl).1,
    ((C11_dequeue_leaves_control_state fullDisc 3).2.2.1 ⟨1, 40⟩ [⟨2, 60⟩] rfl).2,
    (C11_dequeue_leaves_control_state fullDisc 3).1,
    (C11_dequeue_leaves_control_state fullDisc 3).2.1⟩

/-! ## The occupancy accessor (C13) -/

/-- C13: `GetQueueSize` returns the byte count of the store in bytes mode and the
packet count in packets mode, and it aborts (returns no value) if and only if
the mode is neither of the two; so whenever it returns a value, that value is
the count of the configured mode, never a default. -/
theorem C13_GetQueueSize_by_mode (s : KemyQueueDisc) :
    (s.GetMode = QueueMode.QUEUE_MODE_BYTES → s.GetQueueSize = some s.q_.GetNBytes) ∧
    (s.GetMode = QueueMode.QUEUE_MODE_PACKETS → s.GetQueueSize = some s.q_.GetNPackets) ∧
    (s.GetQueueSize = none ↔
      (s.GetMode ≠ QueueMode.QUEUE_MODE_PACKETS ∧ s.GetMode ≠ QueueMode.QUEUE_MODE_BYTES)) ∧
    (∀ size, s.GetQueueSize = some size →
      (s.GetMode = QueueMode.QUEUE_MODE_BYTES ∧ size = s.q_.GetNBytes) ∨
      (s.GetMode = QueueMode.QUEUE_MODE_PACKETS ∧ size = s.q_.GetNPackets)) := by
  unfold GetQueueSize
  refine ⟨fun h => by simp [h], fun h => by simp [h], ?_, ?_⟩
  · by_cases hb : s.GetMode = QueueMode.QUEUE_MODE_BYTES
    · simp [hb]
    · by_cases hp : s.GetMode = QueueMode.QUEUE_MODE_PACKETS
      · simp [hp]
      · simp [hb, hp]
  · intro size h
    by_cases hb : s.GetMode = QueueMode.QUEUE_MODE_BYTES
    · simp [hb] at h
      exact Or.inl ⟨hb, h.symm⟩
    · by_cases hp : s.GetMode = QueueMode.QUEUE_MODE_PACKETS
      · simp [hp] at h
        exact Or.inr ⟨hp, h.symm⟩
      · simp [hb, hp] at h

/-- C13 at concrete inputs: bytes mode with 40 bytes stored. -/
theorem C13_GetQueueSize_witness :
    (bytesDisc 30).GetMode = QueueMode.QUEUE_MODE_BYTES ∧
    (bytesDisc 30).GetQueueSize = some 40 :=
  ⟨rfl, (C13_GetQueueSize_by_mode (bytesDisc 30)).1 rfl⟩

/-! ## Statistics sampling on both paths (C16) -/

/-- In either named mode the occupancy accessor returns. -/
theorem GetQueueSize_returns (s : KemyQueueDisc) (hmode : s.GetMode ≠ QueueMode.unknown) :
    ∃ size, s.GetQueueSize = some size := by
  unfold GetQueueSize
  cases h : s.GetMode with
  | QUEUE_MODE_PACKETS => exact ⟨s.q_.GetNPackets, by simp⟩
  | QUEUE_MODE_BYTES => exact ⟨s.q_.GetNBytes, by simp⟩
  | unknown => exact absurd h hmode

/-- In either named mode an arrival is handled to the end: `DoEnqueue` returns. -/
theorem DoEnqueue_returns (s : KemyQueueDisc) (p : Packet) (now : ℚ)
    (hmode : s.GetMode ≠ QueueMode.unknown) :
    ∃ s', s.DoEnqueue p now = some s' := by
  obtain ⟨size, hsize⟩ := GetQueueSize_returns s hmode
  by_cases hlim : (size + 1) % 4294967296 > s.qlim_
  · exact ⟨_, DoEnqueue_hard s p now size hsize hlim⟩
  · by_cases hwin : size ≥ s.newWindow
    · exact ⟨_, DoEnqueue_policy s p now size hsize hlim hwin⟩
    · exact ⟨_, DoEnqueue_accept s p now size hsize hlim (Nat.lt_of_not_le hwin)⟩

/-- Every exit of the arrival path leaves the statistics as the opening statistics
step set them. -/
theorem DoEnqueue_stats (s s' : KemyQueueDisc) (p : Packet) (now : ℚ)
    (h : s.DoEnqueue p now = some s') :
    s'.true_ave_ = (s.enqueueStats now).true_ave_ ∧
    s'.total_time_ = (s.enqueueStats now).total_time_ := by
  obtain ⟨size, _, hcase⟩ := DoEnqueue_cases s s' p now h
  rcases hcase with ⟨_, rfl⟩ | ⟨_, _, rfl⟩ | ⟨_, _, rfl⟩ <;> simp [Drop]

/-- The statistics step of both paths is one `updateStats` sample of the narrowed
count. -/
theorem enqueueStats_on (s : KemyQueueDisc) (now : ℚ) (hon : s.summarystats ≠ 0) :
    s.enqueueStats now =
      s.updateStats now (toInt32 (if s.qib_ ≠ 0 then s.q_.GetNBytes else s.q_.GetNPackets)) := by
  simp only [enqueueStats, if_pos hon]

/-- C16: with statistics collection enabled (`summarystats` set), every call of
`DoEnqueue` that returns, whichever exit it takes, and every call of `DoDequeue`
leaves `true_ave_` and `total_time_` as exactly one `updateStats` sample makes
them, the sample being the byte count (`qib_` set) or packet count (`qib_`
clear) of the store as the call found it, narrowed to the `int` parameter of
`updateStats`; for a count below `2^31` the narrowed sample is that count
itself.  With statistics collection disabled both calls leave `true_ave_` and
`total_time_` unchanged.  `DoEnqueue` returns in either named mode, and a call
ending in the hard-limit drop is among those covered. -/
theorem C16_one_sample_before_the_effect (s : KemyQueueDisc) (p : Packet) (now : ℚ) :
    (s.GetMode ≠ QueueMode.unknown → ∃ s', s.DoEnqueue p now = some s') ∧
    (s.summarystats ≠ 0 →
      (∀ s', s.DoEnqueue p now = some s' →
        s'.true_ave_ = (s.updateStats now
          (toInt32 (if s.qib_ ≠ 0 then s.q_.GetNBytes else s.q_.GetNPackets))).true_ave_ ∧
        s'.total_time_ = (s.updateStats now
          (toInt32 (if s.qib_ ≠ 0 then s.q_.GetNBytes else s.q_.GetNPackets))).total_time_) ∧
      (s.DoDequeue now).2.true_ave_ = (s.updateStats now
        (toInt32 (if s.qib_ ≠ 0 then s.q_.GetNBytes else s.q_.GetNPackets))).true_ave_ ∧
      (s.DoDequeue now).2.total_time_ = (s.updateStats now
        (toInt32 (if s.qib_ ≠ 0 then s.q_.GetNBytes else s.q_.GetNPackets))).total_time_ ∧
      ((if s.qib_ ≠ 0 then s.q_.GetNBytes else s.q_.GetNPackets) < 2147483648 →
        toInt32 (if s.qib_ ≠ 0 then s.q_.GetNBytes else s.q_.GetNPackets) =
          (((if s.qib_ ≠ 0 then s.q_.GetNBytes else s.q_.GetNPackets) : Nat) : Int))) ∧
    (s.summarystats = 0 →
      (∀ s', s.DoEnqueue p now = some s' →
        s'.true_ave_ = s.true_ave_ ∧ s'.total_time_ = s.total_time_) ∧
      (s.DoDequeue now).2.true_ave_ = s.true_ave_ ∧
      (s.DoDequeue now).2.total_time_ = s.total_time_) := by
  refine ⟨DoEnqueue_returns s p now, fun hon => ?_, fun hoff => ?_⟩
  · have hst := enqueueStats_on s now hon
    refine ⟨fun s' h => ?_, ?_, ?_, toInt32_of_lt _⟩
    · rw [← hst]; exact DoEnqueue_stats s s' p now h
    · rw [← hst, DoDequeue_eq]
    · rw [← hst, DoDequeue_eq]
  · have hst : s.enqueueStats now = s := by
      simp [enqueueStats, hoff]
    refine ⟨fun s' h => ?_, ?_, ?_⟩
    · have := DoEnqueue_stats s s' p now h
      rw [hst] at this
      exact this
    · rw [DoDequeue_eq, hst]
    · rw [DoDequeue_eq, hst]

/-- C16 at a concrete input: the hard-limit drop of the third packet at time 7,
statistics on, packet count 2 sampled. -/
theorem C16_one_sample_witness :
    fullDisc.GetMode ≠ QueueMode.unknown ∧
    fullDisc.summarystats ≠ 0 ∧
    (if fullDisc.qib_ ≠ 0 then fullDisc.q_.GetNBytes else fullDisc.q_.GetNPackets) <
      2147483648 ∧
    toInt32 (if fullDisc.qib_ ≠ 0 then fullDisc.q_.GetNBytes else fullDisc.q_.GetNPackets) =
      (((if fullDisc.qib_ ≠ 0 then fullDisc.q_.GetNBytes else fullDisc.q_.GetNPackets) :
        Nat) : Int) ∧
    ∃ s', fullDisc.DoEnqueue ⟨3, 50⟩ 7 = some s' ∧
      s'.dropped = [⟨3, 50⟩] ∧
      s'.true_ave_ = (fullDisc.updateStats 7
        (toInt32 (if fullDisc.qib_ ≠ 0 then fullDisc.q_.GetNBytes
          else fullDisc.q_.GetNPackets))).true_ave_ ∧
      s'.total_time_ = (fullDisc.updateStats 7
        (toInt32 (if fullDisc.qib_ ≠ 0 then fullDisc.q_.GetNBytes
          else fullDisc.q_.GetNPackets))).total_time_ := by
  have h := DoEnqueue_hard fullDisc ⟨3, 50⟩ 7 2 (by decide) (by decide)
  exact ⟨by decide, by decide, by decide,
    ((C16_one_sample_before_the_effect fullDisc ⟨3, 50⟩ 7).2.1 (by decide)).2.2.2 (by decide),
    _, h, by simp [Drop, fullDisc, create],
    ((C16_one_sample_before_the_effect fullDisc ⟨3, 50⟩ 7).2.1 (by decide)).1 _ h⟩

/-! ## Units of the sampled and of the tested occupancy (C12) -/

/-- When the flag `qib_` and the mode of `GetMode ()` name the same unit, the value
sampled into the statistics is the value `GetQueueSize ()` returns. -/
theorem sample_agrees_when_flags_agree (s : KemyQueueDisc) (size : Nat)
    (hsize : s.GetQueueSize = some size)
    (hagree : s.qib_ ≠ 0 ↔ s.GetMode = QueueMode.QUEUE_MODE_BYTES) :
    (if s.qib_ ≠ 0 then s.q_.GetNBytes else s.q_.GetNPackets) = size := by
  by_cases hb : s.GetMode = QueueMode.QUEUE_MODE_BYTES
  · have hv : s.GetQueueSize = some s.q_.GetNBytes := by simp [GetQueueSize, hb]
    rw [hsize] at hv
    rw [if_pos (hagree.mpr hb), Option.some.inj hv]
  · by_cases hp : s.GetMode = QueueMode.QUEUE_MODE_PACKETS
    · have hv := GetQueueSize_packets s hp
      rw [hsize] at hv
      rw [if_neg (fun h => hb (hagree.mp h)), Option.some.inj hv]
    · simp [GetQueueSize, hb, hp] at hsize

/-- C12, evaluated on the code: with `GetMode ()` in bytes mode, the flag `qib_`
clear and statistics on, a store of one packet of 40 bytes, the statistics step
of `DoEnqueue` samples the packet count 1 (the average becomes 1 at time 2)
while the hard-capacity check and the comparison with the Window use the byte
count 40: the arrival is rejected by policy because 40 is at least the Window
30.  The sample and the two tests are in different units. -/
theorem C12_sample_in_packets_tests_in_bytes :
    mixedDisc.GetMode = QueueMode.QUEUE_MODE_BYTES ∧
    mixedDisc.qib_ = 0 ∧ mixedDisc.summarystats ≠ 0 ∧
    mixedDisc.q_.GetNPackets = 1 ∧ mixedDisc.q_.GetNBytes = 40 ∧
    mixedDisc.GetQueueSize = some 40 ∧
    mixedDisc.enqueueStats 2 = mixedDisc.updateStats 2 (1 : Int) ∧
    ∃ s', mixedDisc.DoEnqueue ⟨2, 60⟩ 2 = some s' ∧
      s'.true_ave_ = 1 ∧ s'.total_time_ = 2 ∧
      s'._the_window = 30 ∧
      s'.dropped = [⟨2, 60⟩] ∧ s'.q_ = mixedDisc.q_ := by
  have hst : mixedDisc.enqueueStats 2 = mixedDisc.updateStats 2 (1 : Int) := by
    rw [enqueueStats_on mixedDisc 2 (by decide), toInt32_of_lt _ (by decide)]
    rfl
  have hpos : (2 : ℚ) - mixedDisc.total_time_ > 0 := by norm_num [mixedDisc, create]
  have hstep := DoEnqueue_policy mixedDisc ⟨2, 60⟩ 2 40 (by decide) (by decide) (by decide)
  refine ⟨rfl, rfl, by decide, by decide, by decide, by decide, hst, _, hstep, ?_, ?_, ?_, ?_, ?_⟩
  · simp only [Drop, hst, updateStats_pos mixedDisc 2 1 hpos]
    norm_num [mixedDisc, create]
  · simp only [Drop, hst, updateStats_pos mixedDisc 2 1 hpos]
  · simp [Drop, newWindow, mixedDisc, create, constTree]
  · simp [Drop, mixedDisc, create]
  · simp [Drop]

/-! ## What the observation carries (C17) -/

/-- C17 as stated fails: in bytes mode, with 40 bytes in one stored packet and the
Window 30, the arrival reaches the policy decision, 40 is the occupancy compared
with the Window, and the observation fed to the control state carries the packet
count 1, not 40. -/
theorem C17_observation_occupancy_counterexample :
    ¬ (∀ (s s' : KemyQueueDisc) (p : Packet) (now : ℚ) (size : Nat),
        s.GetQueueSize = some size → ¬ (size + 1) % 4294967296 > s.qlim_ →
        s.DoEnqueue p now = some s' →
        s'._memory.events = s._memory.events ++ [MemoryEvent.packet_drop now size] ∨
        s'._memory.events = s._memory.events ++ [MemoryEvent.packet_receive now size]) := by
  intro hall
  have hstep := DoEnqueue_policy (bytesDisc 30) ⟨2, 60⟩ 5 40 (by decide) (by decide) (by decide)
  have h := hall (bytesDisc 30) _ ⟨2, 60⟩ 5 40 (by decide) (by decide) hstep
  simp [Drop, Memory.packet_drop, bytesDisc, create, PacketQueue.length,
    PacketQueue.GetNPackets] at h

/-- C17 as amended: for every arrival that reaches the policy decision, in either
occupancy mode, `DoEnqueue` returns and the one observation fed to the control
state (`packet_drop` on rejection, `packet_receive` on acceptance) carries the
arrival time `now` and the pre-admission packet count `q_->length()`; in packets
mode that packet count is the occupancy that was compared with the Window. -/
theorem C17_observation_carries_packet_count (s : KemyQueueDisc) (p : Packet) (now : ℚ)
    (size : Nat)
    (hsize : s.GetQueueSize = some size)
    (hpass : ¬ (size + 1) % 4294967296 > s.qlim_) :
    ∃ s', s.DoEnqueue p now = some s' ∧
      (size ≥ s.newWindow →
        s'._memory.events =
          s._memory.events ++ [MemoryEvent.packet_drop now s.q_.GetNPackets]) ∧
      (size < s.newWindow →
        s'._memory.events =
          s._memory.events ++ [MemoryEvent.packet_receive now s.q_.GetNPackets]) ∧
      (s.GetMode = QueueMode.QUEUE_MODE_PACKETS → s.q_.GetNPackets = size) := by
  have hpk : s.GetMode = QueueMode.QUEUE_MODE_PACKETS → s.q_.GetNPackets = size := by
    intro hm
    have := GetQueueSize_packets s hm
    rw [hsize] at this
    exact (Option.some.inj this).symm
  by_cases hwin : size ≥ s.newWindow
  · refine ⟨_, DoEnqueue_policy s p now size hsize hpass hwin, fun _ => ?_,
      fun hlt => absurd hlt (Nat.not_lt.mpr hwin), hpk⟩
    simp [Drop, Memory.packet_drop, PacketQueue.length]
  · refine ⟨_, DoEnqueue_accept s p now size hsize hpass (Nat.lt_of_not_le hwin),
      fun hge => absurd hge hwin, fun _ => ?_, hpk⟩
    simp [Memory.packet_receive, PacketQueue.length]

/-- C17 as amended, at a concrete input: bytes mode, one packet of 40 bytes stored,
Window 30, an arrival at time 5. -/
theorem C17_observation_witness :
    (bytesDisc 30).GetQueueSize = some 40 ∧
    ¬ (40 + 1) % 4294967296 > (bytesDisc 30).qlim_ ∧
    ∃ s', (bytesDisc 30).DoEnqueue ⟨2, 60⟩ 5 = some s' ∧
      s'._memory.events = [MemoryEvent.packet_drop 5 1] := by
  obtain ⟨s', hstep, hdrop, _, _⟩ :=
    C17_observation_carries_packet_count (bytesDisc 30) ⟨2, 60⟩ 5 40 (by decide) (by decide)
  exact ⟨by decide, by decide, s', hstep, hdrop (by decide)⟩

/-! ## The result of the arrival path (C15) -/

/-- The named exit is the hard-capacity drop exactly on the source's first test. -/
theorem DoEnqueueExit_hard (s : KemyQueueDisc) (now : ℚ) (size : Nat)
    (hsize : s.GetQueueSize = some size)
    (hlim : (size + 1) % 4294967296 > s.qlim_) :
    s.DoEnqueueExit now = some EnqueueExit.hardLimitDrop := by
  simp [DoEnqueueExit, hsize, hlim]

/-- The named exit is the policy drop when the first test fails and the second
holds. -/
theorem DoEnqueueExit_policy (s : KemyQueueDisc) (now : ℚ) (size : Nat)
    (hsize : s.GetQueueSize = some size)
    (hlim : ¬ (size + 1) % 4294967296 > s.qlim_)
    (hwin : size ≥ s.newWindow) :
    s.DoEnqueueExit now = some EnqueueExit.policyDrop := by
  have hlim2 : ¬ s.qlim_ < (size + 1) % 4294967296 := hlim
  unfold newWindow at hwin
  simp only [DoEnqueueExit, enqueueStats_GetQueueSize, hsize, enqueueStats_qlim, gt_iff_lt,
    if_neg hlim2, enqueueStats_whiskers, enqueueStats_memory, enqueueStats_window]
  rw [GetQueueSize_congr _ s (by simp) (by simp), hsize]
  simp [hwin]

/-- The named exit is the acceptance when both tests fail. -/
theorem DoEnqueueExit_accept (s : KemyQueueDisc) (now : ℚ) (size : Nat)
    (hsize : s.GetQueueSize = some size)
    (hlim : ¬ (size + 1) % 4294967296 > s.qlim_)
    (hwin : size < s.newWindow) :
    s.DoEnqueueExit now = some EnqueueExit.accepted := by
  have hlim2 : ¬ s.qlim_ < (size + 1) % 4294967296 := hlim
  unfold newWindow at hwin
  simp only [DoEnqueueExit, enqueueStats_GetQueueSize, hsize, enqueueStats_qlim, gt_iff_lt,
    if_neg hlim2, enqueueStats_whiskers, enqueueStats_memory, enqueueStats_window]
  rw [GetQueueSize_congr _ s (by simp) (by simp), hsize]
  simp [Nat.not_le.mpr hwin]

/-- No exit of `DoEnqueue` hands a value back. -/
theorem DoEnqueueReturn_none (s : KemyQueueDisc) (now : ℚ) :
    s.DoEnqueueReturn now = none := by
  unfold DoEnqueueReturn
  split <;> rfl

/-- A list with one more element at its tail is not the list. -/
theorem append_singleton_ne {α : Type} (l : List α) (a : α) : l ++ [a] ≠ l := by
  intro h
  have := congrArg List.length h
  simp at this

/-- C15 as stated fails: an arrival that leaves by the hard-capacity drop and an
arrival that is accepted hand back the same result (no value at all), so the
result does not tell the outcomes apart. -/
theorem C15_result_counterexample :
    ¬ (∀ (s1 s2 : KemyQueueDisc) (t1 t2 : ℚ) (e1 e2 : EnqueueExit),
        s1.DoEnqueueExit t1 = some e1 → s2.DoEnqueueExit t2 = some e2 → e1 ≠ e2 →
        s1.DoEnqueueReturn t1 ≠ s2.DoEnqueueReturn t2) := by
  intro hall
  have h1 := DoEnqueueExit_hard fullDisc 7 2 (by decide) (by decide)
  have h2 := DoEnqueueExit_accept (bytesDisc 100) 5 40 (by decide) (by decide) (by decide)
  refine hall fullDisc (bytesDisc 100) 7 5 _ _ h1 h2 (by decide) ?_
  rw [DoEnqueueReturn_none, DoEnqueueReturn_none]

/-- C15 as amended: the three outcomes of `DoEnqueue` are told apart by its
effects.  For every call that returns, the exit is the acceptance exactly when
the packet is appended to the store and not handed to `Drop`; it is the
hard-capacity drop exactly when the packet is handed to `Drop` and the control
state is unchanged; it is the policy drop exactly when the packet is handed to
`Drop` and the control state received the one `packet_drop` observation.  The
declared result type `bool` has two values, so no assignment of results to the
three exits gives each exit a value of its own. -/
theorem C15_outcomes_told_apart_by_effects (s s' : KemyQueueDisc) (p : Packet) (now : ℚ)
    (h : s.DoEnqueue p now = some s') :
    (∃ e, s.DoEnqueueExit now = some e ∧
      (e = EnqueueExit.accepted ↔ (s'.q_ = s.q_.DoEnqueue p ∧ s'.dropped = s.dropped)) ∧
      (e = EnqueueExit.hardLimitDrop ↔
        (s'.dropped = s.dropped ++ [p] ∧ s'._memory = s._memory)) ∧
      (e = EnqueueExit.policyDrop ↔
        (s'.dropped = s.dropped ++ [p] ∧
          s'._memory = s._memory.packet_drop now s.q_.length))) ∧
    (∀ r : EnqueueExit → Bool, ¬ Function.Injective r) := by
  constructor
  · obtain ⟨size, hsize, hcase⟩ := DoEnqueue_cases s s' p now h
    have hmem : ∀ t n, s._memory.packet_drop t n ≠ s._memory := by
      intro t n hm
      have := congrArg Memory.events hm
      exact append_singleton_ne _ _ this
    rcases hcase with ⟨hlim, rfl⟩ | ⟨hlim, hwin, rfl⟩ | ⟨hlim, hwin, rfl⟩
    · refine ⟨_, DoEnqueueExit_hard s now size hsize hlim, ?_, ?_, ?_⟩
      · simp [Drop, append_singleton_ne]
      · simp [Drop]
      · simp only [Drop, enqueueStats_dropped, enqueueStats_memory]
        constructor
        · intro h; cases h
        · intro h; exact absurd h.2.symm (hmem _ _)
    · refine ⟨_, DoEnqueueExit_policy s now size hsize hlim hwin, ?_, ?_, ?_⟩
      · simp [Drop, append_singleton_ne]
      · simp only [Drop, enqueueStats_dropped]
        constructor
        · intro h; cases h
        · intro h; exact absurd h.2 (hmem _ _)
      · simp [Drop]
    · refine ⟨_, DoEnqueueExit_accept s now size hsize hlim hwin, ?_, ?_, ?_⟩
      · simp
      · simp only [enqueueStats_dropped]
        constructor
        · intro h; cases h
        · intro h; exact absurd h.1.symm (append_singleton_ne _ _)
      · simp only [enqueueStats_dropped]
        constructor
        · intro h; cases h
        · intro h; exact absurd h.1.symm (append_singleton_ne _ _)
  · intro r hinj
    have h1 : EnqueueExit.hardLimitDrop ≠ EnqueueExit.policyDrop := by decide
    have h2 : EnqueueExit.hardLimitDrop ≠ EnqueueExit.accepted := by decide
    have h3 : EnqueueExit.policyDrop ≠ EnqueueExit.accepted := by decide
    cases ha : r EnqueueExit.hardLimitDrop <;> cases hb : r EnqueueExit.policyDrop <;>
      cases hc : r EnqueueExit.accepted
    all_goals
      first
        | exact h1 (hinj (ha.trans hb.symm))
        | exact h2 (hinj (ha.trans hc.symm))
        | exact h3 (hinj (hb.trans hc.symm))

/-- C15 as amended, at a concrete input: the hard-capacity drop of a third packet
under capacity 2. -/
theorem C15_outcomes_witness :
    ∃ s', fullDisc.DoEnqueue ⟨3, 50⟩ 7 = some s' ∧
      ∃ e, fullDisc.DoEnqueueExit 7 = some e ∧
        (e = EnqueueExit.hardLimitDrop ↔
          (s'.dropped = fullDisc.dropped ++ [⟨3, 50⟩] ∧ s'._memory = fullDisc._memory)) := by
  have h := DoEnqueue_hard fullDisc ⟨3, 50⟩ 7 2 (by decide) (by decide)
  obtain ⟨e, he, _, hhard, _⟩ := (C15_outcomes_told_apart_by_effects fullDisc _ ⟨3, 50⟩ 7 h).1
  exact ⟨_, h, e, he, hhard⟩

/-! ## Sequences of arrivals and departures (C14, C18) -/

/-- What every exit of the arrival path leaves untouched. -/
theorem DoEnqueue_frame (s s' : KemyQueueDisc) (p : Packet) (now : ℚ)
    (h : s.DoEnqueue p now = some s') :
    s'._whiskers = s._whiskers ∧ s'.GetMode = s.GetMode ∧ s'.qlim_ = s.qlim_ := by
  obtain ⟨size, _, hcase⟩ := DoEnqueue_cases s s' p now h
  rcases hcase with ⟨_, rfl⟩ | ⟨_, _, rfl⟩ | ⟨_, _, rfl⟩ <;> simp [Drop, GetMode]

/-- An event that is not an arrival reaching the policy lookup keeps the Window. -/
theorem step_keeps_window (s s' : KemyQueueDisc) (e : QueueEvent)
    (hstep : s.step e = some s') (hquiet : s.reachesLookup e = false) :
    s'._the_window = s._the_window := by
  cases e with
  | arrival p now =>
    simp only [step] at hstep
    obtain ⟨size, hsize, hcase⟩ := DoEnqueue_cases s s' p now hstep
    simp only [reachesLookup, hsize, Bool.not_eq_false', decide_eq_true_eq] at hquiet
    rcases hcase with ⟨_, rfl⟩ | ⟨hlim, _, _⟩ | ⟨hlim, _, _⟩
    · simp [Drop]
    · exact absurd hquiet hlim
    · exact absurd hquiet hlim
  | departure now =>
    simp only [step, Option.some.injEq] at hstep
    rw [← hstep]
    exact (DoDequeue_frame s now).2.1

/-- A sequence of events none of which reaches the policy lookup keeps the Window. -/
theorem run_keeps_window (es : List QueueEvent) :
    ∀ s s' : KemyQueueDisc, s.run es = some s' → s.noLookup es = true →
      s'._the_window = s._the_window := by
  induction es with
  | nil =>
    intro s s' hrun _
    simp only [run, Option.some.injEq] at hrun
    rw [hrun]
  | cons e rest ih =>
    intro s s' hrun hquiet
    cases hstep : s.step e with
    | none => simp [run, hstep] at hrun
    | some s1 =>
      simp only [run, hstep] at hrun
      simp only [noLookup, hstep, Bool.and_eq_true, Bool.not_eq_true'] at hquiet
      rw [ih s1 s' hrun hquiet.2]
      exact step_keeps_window s s1 e hstep hquiet.1

/-- C14: assuming every rule of the policy table returns, for every previous
Window, a value within the floor and ceiling the rule declares, every arrival
that reaches the policy lookup of `DoEnqueue` (from any state, so after any
sequence of arrivals and departures) returns with the stored Window within the
bounds of the rule selected in that arrival; and the Window keeps that value
along every following sequence of arrivals and departures none of which reaches
the policy lookup. -/
theorem C14_window_within_selected_bounds (s : KemyQueueDisc) (p : Packet) (now : ℚ)
    (size : Nat)
    (hbounds : ∀ m prev,
      (s._whiskers.use_whisker m).floor ≤ (s._whiskers.use_whisker m).window prev ∧
      (s._whiskers.use_whisker m).window prev ≤ (s._whiskers.use_whisker m).ceiling)
    (hsize : s.GetQueueSize = some size)
    (hpass : ¬ (size + 1) % 4294967296 > s.qlim_) :
    ∃ s', s.DoEnqueue p now = some s' ∧
      (s._whiskers.use_whisker s._memory).floor ≤ s'._the_window ∧
      s'._the_window ≤ (s._whiskers.use_whisker s._memory).ceiling ∧
      ∀ es s'', s'.run es = some s'' → s'.noLookup es = true →
        s''._the_window = s'._the_window := by
  have hb := hbounds s._memory s._the_window
  by_cases hwin : size ≥ s.newWindow
  · obtain ⟨s', hstep, _, _, _, hw, _⟩ :=
      DoEnqueue_policy_fields s p now size hsize hpass hwin
    refine ⟨s', hstep, ?_, ?_, fun es s'' => run_keeps_window es s' s''⟩
    · rw [hw]; exact hb.1
    · rw [hw]; exact hb.2
  · obtain ⟨s', hstep, _, _, _, hw, _⟩ :=
      DoEnqueue_accept_fields s p now size hsize hpass (Nat.lt_of_not_le hwin)
    refine ⟨s', hstep, ?_, ?_, fun es s'' => run_keeps_window es s' s''⟩
    · rw [hw]; exact hb.1
    · rw [hw]; exact hb.2

/-- C14 at a concrete input: bytes mode, Window rule constantly 30 with floor and
ceiling 30, followed by a departure. -/
theorem C14_window_witness :
    (∀ m prev,
      ((bytesDisc 30)._whiskers.use_whisker m).floor ≤
        ((bytesDisc 30)._whiskers.use_whisker m).window prev ∧
      ((bytesDisc 30)._whiskers.use_whisker m).window prev ≤
        ((bytesDisc 30)._whiskers.use_whisker m).ceiling) ∧
    (bytesDisc 30).GetQueueSize = some 40 ∧
    ¬ (40 + 1) % 4294967296 > (bytesDisc 30).qlim_ ∧
    ∃ s', (bytesDisc 30).DoEnqueue ⟨2, 60⟩ 5 = some s' ∧
      30 ≤ s'._the_window ∧ s'._the_window ≤ 30 ∧
      ∀ s'', s'.run [QueueEvent.departure 6] = some s'' →
        s'.noLookup [QueueEvent.departure 6] = true → s''._the_window = s'._the_window := by
  have hb : ∀ m prev,
      ((bytesDisc 30)._whiskers.use_whisker m).floor ≤
        ((bytesDisc 30)._whiskers.use_whisker m).window prev ∧
      ((bytesDisc 30)._whiskers.use_whisker m).window prev ≤
        ((bytesDisc 30)._whiskers.use_whisker m).ceiling :=
    fun _ _ => ⟨Nat.le_refl 30, Nat.le_refl 30⟩
  obtain ⟨s', hstep, hlo, hhi, hkeep⟩ :=
    C14_window_within_selected_bounds (bytesDisc 30) ⟨2, 60⟩ 5 40 hb (by decide) (by decide)
  exact ⟨hb, by decide, by decide, s', hstep, hlo, hhi, hkeep _⟩

/-- One event keeps the packet count within the capacity limit, in packets mode,
when the limit is below the largest 32-bit value or the Window values fit 32
bits. -/
theorem step_keeps_capacity (s s' : KemyQueueDisc) (e : QueueEvent)
    (hmode : s.GetMode = QueueMode.QUEUE_MODE_PACKETS)
    (hrange : s.qlim_ + 1 < 4294967296 ∨
      ∀ m prev, (s._whiskers.use_whisker m).window prev < 4294967296)
    (hinv : s.q_.GetNPackets ≤ s.qlim_)
    (hstep : s.step e = some s') :
    s'.q_.GetNPackets ≤ s.qlim_ := by
  cases e with
  | arrival p now =>
    simp only [step] at hstep
    obtain ⟨size, hsize, hcase⟩ := DoEnqueue_cases s s' p now hstep
    have hn : s.q_.GetNPackets = size := by
      have := GetQueueSize_packets s hmode
      rw [hsize] at this
      exact (Option.some.inj this).symm
    rcases hcase with ⟨_, rfl⟩ | ⟨_, _, rfl⟩ | ⟨hlim, hwin, rfl⟩
    · simpa [Drop] using hinv
    · simpa [Drop] using hinv
    · have hfit : size + 1 < 4294967296 := by
        rcases hrange with hq | hw
        · omega
        · have := hw s._memory s._the_window
          unfold newWindow at hwin
          omega
      rw [Nat.mod_eq_of_lt hfit] at hlim
      simp only [PacketQueue.DoEnqueue, PacketQueue.GetNPackets, List.length_append,
        List.length_singleton] at hn ⊢
      omega
  | departure now =>
    simp only [step, Option.some.injEq] at hstep
    rw [← hstep, DoDequeue_eq]
    simp only [enqueueStats_q, PacketQueue.DoDequeue, PacketQueue.GetNPackets] at hinv ⊢
    cases hitems : s.q_.items with
    | nil => simp [hitems]
    | cons p rest =>
      rw [hitems] at hinv
      simp only [List.length_cons] at hinv ⊢
      omega

/-- One event keeps the configuration: policy table, mode and capacity limit. -/
theorem step_frame (s s' : KemyQueueDisc) (e : QueueEvent) (hstep : s.step e = some s') :
    s'._whiskers = s._whiskers ∧ s'.GetMode = s.GetMode ∧ s'.qlim_ = s.qlim_ := by
  cases e with
  | arrival p now => exact DoEnqueue_frame s s' p now hstep
  | departure now =>
    simp only [step, Option.some.injEq] at hstep
    rw [← hstep]
    exact ⟨(DoDequeue_frame s now).2.2.1, (DoDequeue_frame s now).2.2.2.1,
      (DoDequeue_frame s now).2.2.2.2.1⟩

/-- In either named mode one event is handled to the end. -/
theorem step_returns (s : KemyQueueDisc) (e : QueueEvent)
    (hmode : s.GetMode ≠ QueueMode.unknown) : ∃ s', s.step e = some s' := by
  cases e with
  | arrival p now => exact DoEnqueue_returns s p now hmode
  | departure now => exact ⟨_, rfl⟩

/-- The capacity invariant along a sequence of events. -/
theorem run_keeps_capacity (es : List QueueEvent) :
    ∀ s : KemyQueueDisc, s.GetMode = QueueMode.QUEUE_MODE_PACKETS →
      (s.qlim_ + 1 < 4294967296 ∨
        ∀ m prev, (s._whiskers.use_whisker m).window prev < 4294967296) →
      s.q_.GetNPackets ≤ s.qlim_ →
      ∃ s', s.run es = some s' ∧ s'.q_.GetNPackets ≤ s.qlim_ := by
  induction es with
  | nil => intro s _ _ hinv; exact ⟨s, rfl, hinv⟩
  | cons e rest ih =>
    intro s hmode hrange hinv
    obtain ⟨s1, hstep⟩ := step_returns s e (by rw [hmode]; decide)
    obtain ⟨hw, hm, hq⟩ := step_frame s s1 e hstep
    have hinv1 := step_keeps_capacity s s1 e hmode hrange hinv hstep
    obtain ⟨s', hrun, hle⟩ := ih s1 (hm.trans hmode) (by rw [hq, hw]; exact hrange)
      (by rw [hq]; exact hinv1)
    exact ⟨s', by simp only [run, hstep]; exact hrun, by rw [← hq]; exact hle⟩

/-- C18: in packets mode, for every policy table and every sequence of arrivals
and departures applied to a controller whose store starts empty, the sequence is
handled to the end and the packet count of the store does not exceed the
capacity limit afterwards; as every prefix of a sequence is a sequence, this
holds in every reachable state.  The 32-bit sum of the hard-capacity check needs
the capacity limit below the largest 32-bit value, or else Window values that
fit the 32 bits of `_the_window`. -/
theorem C18_packet_count_within_capacity (s : KemyQueueDisc) (es : List QueueEvent)
    (hmode : s.GetMode = QueueMode.QUEUE_MODE_PACKETS)
    (hrange : s.qlim_ + 1 < 4294967296 ∨
      ∀ m prev, (s._whiskers.use_whisker m).window prev < 4294967296)
    (hempty : s.q_.items = []) :
    ∃ s', s.run es = some s' ∧ s'.q_.GetNPackets ≤ s.qlim_ :=
  run_keeps_capacity es s hmode hrange (by simp [PacketQueue.GetNPackets, hempty])

/-- C18 at a concrete input: capacity 2, three arrivals, a departure and one more
arrival. -/
theorem C18_packet_count_witness :
    (create (constTree 3) QueueMode.QUEUE_MODE_PACKETS 2 1 0).GetMode =
      QueueMode.QUEUE_MODE_PACKETS ∧
    (create (constTree 3) QueueMode.QUEUE_MODE_PACKETS 2 1 0).qlim_ + 1 < 4294967296 ∧
    (create (constTree 3) QueueMode.QUEUE_MODE_PACKETS 2 1 0).q_.items = [] ∧
    ∃ s', (create (constTree 3) QueueMode.QUEUE_MODE_PACKETS 2 1 0).run
        [QueueEvent.arrival ⟨1, 10⟩ 0, QueueEvent.arrival ⟨2, 10⟩ 1,
          QueueEvent.arrival ⟨3, 10⟩ 2, QueueEvent.departure 3,
          QueueEvent.arrival ⟨4, 10⟩ 4] = some s' ∧
      s'.q_.GetNPackets ≤ 2 :=
  ⟨rfl, by decide, rfl,
    C18_packet_count_within_capacity _ _ rfl (Or.inl (by decide)) rfl⟩

/-! ## Safety and bounds of the statistics (C19, C20) -/

/-- After a sample the time of the last update is the larger of its previous value
and `now`. -/
theorem updateStats_total_time (s : KemyQueueDisc) (now : ℚ) (queuesize : Int) :
    (s.updateStats now queuesize).total_time_ = max s.total_time_ now := by
  by_cases h : now - s.total_time_ > 0
  · rw [updateStats_pos s now queuesize h]
    have : s.total_time_ ≤ now := by linarith
    simp [max_eq_right this]
  · rw [updateStats_nonpos s now queuesize h]
    have : now ≤ s.total_time_ := by linarith
    simp [max_eq_left this]

/-- A run of samples never takes the time of the last update below zero. -/
theorem sampleAll_total_time_nonneg (samples : List (ℚ × Int)) :
    ∀ s : KemyQueueDisc, 0 ≤ s.total_time_ → 0 ≤ (s.sampleAll samples).total_time_ := by
  induction samples with
  | nil => intro s h; exact h
  | cons a rest ih =>
    intro s h
    show 0 ≤ (sampleAll (s.updateStats a.1 a.2) rest).total_time_
    apply ih
    rw [updateStats_total_time]
    exact le_max_of_le_left h

/-- C19: each sample sets `total_time_` to the maximum of its previous value and
`now`, whatever the sample time; and starting from `total_time_ = 0`, after
any run of samples with arbitrary times `total_time_` is non-negative, a
further sample never decreases it, and whenever that sample takes the averaging
branch (`now - total_time_ > 0`) the divisor `now` is strictly positive. -/
theorem C19_total_time_monotone_divisor_positive :
    (∀ (s : KemyQueueDisc) (now : ℚ) (o : Int),
      (s.updateStats now o).total_time_ = max s.total_time_ now) ∧
    (∀ (s : KemyQueueDisc) (pre : List (ℚ × Int)) (a : ℚ × Int), s.total_time_ = 0 →
      0 ≤ (s.sampleAll pre).total_time_ ∧
      (s.sampleAll pre).total_time_ ≤ ((s.sampleAll pre).updateStats a.1 a.2).total_time_ ∧
      0 ≤ ((s.sampleAll pre).updateStats a.1 a.2).total_time_ ∧
      (a.1 - (s.sampleAll pre).total_time_ > 0 → 0 < a.1)) := by
  refine ⟨updateStats_total_time, fun s pre a h0 => ?_⟩
  have hnn : 0 ≤ (s.sampleAll pre).total_time_ :=
    sampleAll_total_time_nonneg pre s (by rw [h0])
  refine ⟨hnn, ?_, ?_, fun hpos => by linarith⟩
  · rw [updateStats_total_time]; exact le_max_left _ _
  · rw [updateStats_total_time]; exact le_max_of_le_left hnn

/-- C19 at a concrete input: samples at times 4 and then -1 (a regressing, negative
time) on the freshly created controller, then a sample at time 6. -/
theorem C19_total_time_witness :
    (create (constTree 3) QueueMode.QUEUE_MODE_PACKETS 5 1 0).total_time_ = 0 ∧
    0 ≤ ((create (constTree 3) QueueMode.QUEUE_MODE_PACKETS 5 1 0).sampleAll
      [(4, 2), (-1, 7)]).total_time_ ∧
    ((create (constTree 3) QueueMode.QUEUE_MODE_PACKETS 5 1 0).sampleAll
      [(4, 2), (-1, 7)]).total_time_ ≤
      (((create (constTree 3) QueueMode.QUEUE_MODE_PACKETS 5 1 0).sampleAll
        [(4, 2), (-1, 7)]).updateStats 6 1).total_time_ :=
  ⟨rfl,
    (C19_total_time_monotone_divisor_positive.2
      (create (constTree 3) QueueMode.QUEUE_MODE_PACKETS 5 1 0) [(4, 2), (-1, 7)] (6, 1) rfl).1,
    (C19_total_time_monotone_divisor_positive.2
      (create (constTree 3) QueueMode.QUEUE_MODE_PACKETS 5 1 0) [(4, 2), (-1, 7)] (6, 1)
        rfl).2.1⟩

/-- The averaging branch yields a value between two bounds that hold both the
sampled occupancy and, unless the previous time is zero, the previous average. -/
theorem updateStats_between (s : KemyQueueDisc) (now : ℚ) (o : Int) (lo hi : ℚ)
    (h0 : 0 ≤ s.total_time_) (hpos : now - s.total_time_ > 0)
    (hold : s.total_time_ = 0 ∨ (lo ≤ s.true_ave_ ∧ s.true_ave_ ≤ hi))
    (ho : lo ≤ (o : ℚ) ∧ (o : ℚ) ≤ hi) :
    lo ≤ (s.updateStats now o).true_ave_ ∧ (s.updateStats now o).true_ave_ ≤ hi := by
  have hnow : 0 < now := by linarith
  rw [updateStats_pos s now o hpos]
  show lo ≤ (s.total_time_ * s.true_ave_ + (now - s.total_time_) * (o : ℚ)) / now ∧
    (s.total_time_ * s.true_ave_ + (now - s.total_time_) * (o : ℚ)) / now ≤ hi
  rw [le_div_iff₀ hnow, div_le_iff₀ hnow]
  rcases hold with ht | ⟨hl, hh⟩
  · rw [ht]
    constructor
    · nlinarith [ho.1, ho.2]
    · nlinarith [ho.1, ho.2]
  · constructor
    · nlinarith [mul_nonneg h0 (sub_nonneg.mpr hl),
        mul_nonneg (le_of_lt hpos) (sub_nonneg.mpr ho.1)]
    · nlinarith [mul_nonneg h0 (sub_nonneg.mpr hh),
        mul_nonneg (le_of_lt hpos) (sub_nonneg.mpr ho.2)]

/-- Bounds on the occupancies that advance the average are bounds on the average
at the end of the run. -/
theorem sampleAll_between (samples : List (ℚ × Int)) :
    ∀ (s : KemyQueueDisc) (lo hi : ℚ), 0 ≤ s.total_time_ →
      (s.total_time_ = 0 ∨ (lo ≤ s.true_ave_ ∧ s.true_ave_ ≤ hi)) →
      (∀ o ∈ s.advancing samples, lo ≤ (o : ℚ) ∧ (o : ℚ) ≤ hi) →
      (s.total_time_ = 0 → s.advancing samples ≠ []) →
      lo ≤ (s.sampleAll samples).true_ave_ ∧ (s.sampleAll samples).true_ave_ ≤ hi := by
  induction samples with
  | nil =>
    intro s lo hi _ hold _ hne
    rcases hold with ht | hb
    · exact absurd rfl (hne ht)
    · exact hb
  | cons a rest ih =>
    intro s lo hi h0 hold hadv hne
    show lo ≤ (sampleAll (s.updateStats a.1 a.2) rest).true_ave_ ∧
      (sampleAll (s.updateStats a.1 a.2) rest).true_ave_ ≤ hi
    by_cases hpos : a.1 - s.total_time_ > 0
    · have hadv_eq : s.advancing (a :: rest) = a.2 :: (s.updateStats a.1 a.2).advancing rest := by
        simp only [advancing, if_pos hpos]
      rw [hadv_eq] at hadv
      have hb := updateStats_between s a.1 a.2 lo hi h0 hpos hold
        (hadv a.2 (List.mem_cons_self _ _))
      have ht1 : (s.updateStats a.1 a.2).total_time_ = a.1 := by
        rw [updateStats_pos s a.1 a.2 hpos]
      have hne1 : (s.updateStats a.1 a.2).total_time_ ≠ 0 := by
        rw [ht1]; intro hz; rw [hz] at hpos; linarith
      exact ih _ lo hi (by rw [ht1]; linarith) (Or.inr hb)
        (fun o ho => hadv o (List.mem_cons_of_mem _ ho)) (fun hz => absurd hz hne1)
    · have hs1 : s.updateStats a.1 a.2 = s := updateStats_nonpos s a.1 a.2 hpos
      have hadv_eq : s.advancing (a :: rest) = s.advancing rest := by
        simp only [advancing, if_neg hpos, hs1]
      rw [hadv_eq] at hadv hne
      rw [hs1]
      exact ih s lo hi h0 hold hadv hne

/-- A non-empty list of integers has a least and a greatest element. -/
theorem exists_least_greatest (l : List Int) (hne : l ≠ []) :
    ∃ a ∈ l, ∃ b ∈ l, ∀ x ∈ l, a ≤ x ∧ x ≤ b := by
  induction l with
  | nil => exact absurd rfl hne
  | cons y rest ih =>
    by_cases hrest : rest = []
    · subst hrest
      exact ⟨y, by simp, y, by simp, fun x hx => by simp at hx; subst hx; exact ⟨le_rfl, le_rfl⟩⟩
    · obtain ⟨a, ha, b, hb, hall⟩ := ih hrest
      refine ⟨min y a, ?_, max y b, ?_, ?_⟩
      · rcases le_total y a with h | h
        · rw [min_eq_left h]; exact List.mem_cons_self _ _
        · rw [min_eq_right h]; exact List.mem_cons_of_mem _ ha
      · rcases le_total y b with h | h
        · rw [max_eq_right h]; exact List.mem_cons_of_mem _ hb
        · rw [max_eq_left h]; exact List.mem_cons_self _ _
      · intro x hx
        rcases List.mem_cons.mp hx with rfl | hx
        · exact ⟨min_le_left _ _, le_max_left _ _⟩
        · exact ⟨le_trans (min_le_right _ _) (hall x hx).1,
            le_trans (hall x hx).2 (le_max_right _ _)⟩

/-- C20: over exact arithmetic, for every state with `total_time_ ≥ 0` and every
sample with `now > total_time_`, the running average that `updateStats` produces
lies between the previous running average and the sampled occupancy, bounds
included; and from the state `(0, 0)`, after any run of samples of which at
least one advanced the average, the running average lies between the least and
the greatest of the occupancies of the samples that advanced it. -/
theorem C20_average_between_bounds :
    (∀ (s : KemyQueueDisc) (now : ℚ) (o : Int), 0 ≤ s.total_time_ → now > s.total_time_ →
      min s.true_ave_ (o : ℚ) ≤ (s.updateStats now o).true_ave_ ∧
      (s.updateStats now o).true_ave_ ≤ max s.true_ave_ (o : ℚ)) ∧
    (∀ (s : KemyQueueDisc) (samples : List (ℚ × Int)),
      s.true_ave_ = 0 → s.total_time_ = 0 → s.advancing samples ≠ [] →
      ∃ omin ∈ s.advancing samples, ∃ omax ∈ s.advancing samples,
        (∀ o ∈ s.advancing samples, omin ≤ o ∧ o ≤ omax) ∧
        (omin : ℚ) ≤ (s.sampleAll samples).true_ave_ ∧
        (s.sampleAll samples).true_ave_ ≤ (omax : ℚ)) := by
  constructor
  · intro s now o h0 hgt
    exact updateStats_between s now o _ _ h0 (by linarith)
      (Or.inr ⟨min_le_left _ _, le_max_left _ _⟩) ⟨min_le_right _ _, le_max_right _ _⟩
  · intro s samples _ ht hne
    obtain ⟨omin, hmin, omax, hmax, hall⟩ := exists_least_greatest _ hne
    refine ⟨omin, hmin, omax, hmax, hall, ?_⟩
    exact sampleAll_between samples s omin omax (by rw [ht]) (Or.inl ht)
      (fun o ho => ⟨by exact_mod_cast (hall o ho).1, by exact_mod_cast (hall o ho).2⟩)
      (fun _ => hne)

/-- C20 at a concrete input: from `(0, 0)`, a sample at time 2 with occupancy 1. -/
theorem C20_average_witness :
    (0 : ℚ) ≤ (create (constTree 3) QueueMode.QUEUE_MODE_PACKETS 5 1 0).total_time_ ∧
    (2 : ℚ) > (create (constTree 3) QueueMode.QUEUE_MODE_PACKETS 5 1 0).total_time_ ∧
    min (create (constTree 3) QueueMode.QUEUE_MODE_PACKETS 5 1 0).true_ave_ ((1 : Int) : ℚ) ≤
      ((create (constTree 3) QueueMode.QUEUE_MODE_PACKETS 5 1 0).updateStats 2 1).true_ave_ ∧
    ((create (constTree 3) QueueMode.QUEUE_MODE_PACKETS 5 1 0).updateStats 2 1).true_ave_ ≤
      max (create (constTree 3) QueueMode.QUEUE_MODE_PACKETS 5 1 0).true_ave_ ((1 : Int) : ℚ) :=
  ⟨by norm_num [create], by norm_num [create],
    C20_average_between_bounds.1 _ 2 1 (by norm_num [create]) (by norm_num [create])⟩

end KemyQueueDisc

end Kemy
